import Mathlib

/-!
# HD44780 LCD driver in 4-bit mode: a shallow embedding of `lcd_display.cpp`

The driver object is a record of its member variables together with two
histories: the hardware calls made so far (`events`) and the payload arrays
handed to successive calls of `send_raw_data_one_cycle` (`cycles`).  Every
member function of the class is a function from driver records to driver
records.

Conventions of the embedding.

* `uint` and `uint32_t` values are natural numbers; where the C++ arithmetic
  can wrap, the reduction modulo `2 ^ 32` is written out.
* `int` arguments (`pos_i`, `line`, `brightness`) are integers; `/` on `int`
  truncates towards zero (`Int.tdiv`).
* C arrays of `uint` are lists; `a[i] = x` is `List.set`, and `a[i]` is
  `List.getD a i 0`.  A local array that the code leaves uninitialised starts
  as a list of zeros of the declared size.
* A C string is the list of its `char` values; the terminating NUL is either
  an explicit `0` in the list or the end of the list.
* The class declaration (`lcd_display.hpp`) is not part of the sources at
  hand.  The member variables are the ones the `.cpp` file reads and writes;
  pin numbers, geometry and cursor flags are unsigned.
-/

namespace LCD

/-! ## Constants of `lcd_display.cpp` -/

/-- Position of the register-select pin in `LCDpins` (`#define RS 4`). -/
def RS : Nat := 4
/-- Position of the enable pin in `LCDpins` (`#define E 5`). -/
def E : Nat := 5
/-- Pin value high (`#define HIGH 1`). -/
def HIGH : Nat := 1
/-- Pin value low (`#define LOW 0`). -/
def LOW : Nat := 0
/-- Register-select value of a command transfer (`#define COMMAND 0`). -/
def COMMAND : Nat := 0
/-- Register-select value of a data transfer (`#define DATA 1`). -/
def DATA : Nat := 1

/-! ## Hardware calls -/

/-- The calls into the Pico SDK that the driver makes, with their arguments.
`gpio_set_function_pwm pin` is `gpio_set_function(pin, GPIO_FUNC_PWM)`;
`pwm_init pin clkdiv wrap` is `pwm_init` on the slice of `pin` with the clock
divider and wrap value of the configuration. -/
inductive Event where
  | gpio_put_masked (mask value : Nat)
  | gpio_put (pin value : Nat)
  | sleep_ms (ms : Nat)
  | gpio_init_mask (mask : Nat)
  | gpio_set_dir_out_masked (mask : Nat)
  | gpio_clr_mask (mask : Nat)
  | gpio_set_function_pwm (pin : Nat)
  | pwm_init (pin clkdiv wrap : Nat)
  | pwm_set_gpio_level (pin : Nat) (level : Int)
  deriving DecidableEq

/-! ## The driver object -/

/-- Member variables of `LCDdisplay`, plus the two histories. -/
structure LCDdisplay where
  /-- Mask over all six assigned pins (with the clock). -/
  LCDmask_c : Nat
  /-- Mask over the five payload pins (without the clock). -/
  LCDmask : Nat
  /-- Pins of bit 7, bit 6, bit 5, bit 4, RS, E, in this order. -/
  LCDpins : List Nat
  bl_pwm_pin : Nat
  no_chars : Nat
  no_lines : Nat
  /-- The pair `cursor_status[0]` (cursor visible), `cursor_status[1]` (blink). -/
  cursor_status : Nat × Nat
  /-- History of hardware calls, oldest first. -/
  events : List Event
  /-- History of the arrays passed to `send_raw_data_one_cycle`, oldest first. -/
  cycles : List (List Nat)
  deriving DecidableEq

namespace LCDdisplay

/-- Constructor without backlight pin, lines 144-156.  `this` is the storage
the constructor runs on: the members it does not assign keep the value the
class declaration gives them. -/
def ctor (this : LCDdisplay) (bit4_pin bit5_pin bit6_pin bit7_pin rs_pin e_pin
    width depth : Nat) : LCDdisplay :=
  { this with
    LCDpins := [bit7_pin, bit6_pin, bit5_pin, bit4_pin, rs_pin, e_pin]
    bl_pwm_pin := 255
    no_chars := width
    no_lines := depth }

/-- Constructor with backlight pin, lines 162-174. -/
def ctor_bl (this : LCDdisplay) (bit4_pin bit5_pin bit6_pin bit7_pin rs_pin e_pin
    bl_pin width depth : Nat) : LCDdisplay :=
  { this with
    LCDpins := [bit7_pin, bit6_pin, bit5_pin, bit4_pin, rs_pin, e_pin]
    bl_pwm_pin := bl_pin
    no_chars := width
    no_lines := depth }

/-- Append one hardware call to the history. -/
def emit (self : LCDdisplay) (e : Event) : LCDdisplay :=
  { self with events := self.events ++ [e] }

/-- The array `pinArray` of `pin_values_to_mask` after its first two loops:
32 zeros, then `pinArray[LCDpins[i]] = raw_bits[i]` for `i = 0 .. length-1`.
(A pin number of 32 or more writes outside the array in C++; here such an
assignment is dropped.) -/
def pinArray (self : LCDdisplay) (raw_bits : List Nat) (length : Nat) : List Nat :=
  (List.range length).foldl
    (fun pa i => pa.set (self.LCDpins.getD i 0) (raw_bits.getD i 0))
    (List.replicate 32 0)

/-- The first `n` rounds of the third loop of `pin_values_to_mask`:
`result = result << 1; result += pinArray[31 - i]` on a `uint32_t`, starting
from `result = 0`. -/
def pack_rounds (pa : List Nat) (n : Nat) : Nat :=
  (List.range n).foldl
    (fun result i => ((result <<< 1) % 2 ^ 32 + pa.getD (31 - i) 0) % 2 ^ 32) 0

/-- Member function `pin_values_to_mask`, lines 22-49. -/
def pin_values_to_mask (self : LCDdisplay) (raw_bits : List Nat) (length : Nat) : Nat :=
  pack_rounds (self.pinArray raw_bits length) 32

/-- Member function `uint_into_8bits`, lines 62-67: eight rounds of
`raw_bits[7 - i] = one_byte % 2; one_byte = one_byte >> 1`.  The result is
the array after the loop. -/
def uint_into_8bits (raw_bits : List Nat) (one_byte : Nat) : List Nat :=
  ((List.range 8).foldl
    (fun (st : List Nat × Nat) i => (st.1.set (7 - i) (st.2 % 2), st.2 >>> 1))
    (raw_bits, one_byte)).1

/-- Member function `init_pwm_pin`, lines 75-83. -/
def init_pwm_pin (self : LCDdisplay) (pin : Nat) : LCDdisplay :=
  { self with
    bl_pwm_pin := pin
    events := self.events ++ [Event.gpio_set_function_pwm pin, Event.pwm_init pin 500 100] }

/-- Member function `send_raw_data_one_cycle`, lines 96-104. -/
def send_raw_data_one_cycle (self : LCDdisplay) (raw_bits : List Nat) : LCDdisplay :=
  let bit_value := self.pin_values_to_mask raw_bits 5
  { self with
    events := self.events ++
      [Event.gpio_put_masked self.LCDmask bit_value,
       Event.gpio_put (self.LCDpins.getD E 0) HIGH,
       Event.sleep_ms 5,
       Event.gpio_put (self.LCDpins.getD E 0) LOW,
       Event.sleep_ms 5]
    cycles := self.cycles ++ [raw_bits] }

/-- Member function `send_full_byte`, lines 117-130. -/
def send_full_byte (self : LCDdisplay) (rs : Nat) (databits : List Nat) : LCDdisplay :=
  let rawbits : List Nat := List.replicate 5 0
  let rawbits := rawbits.set 4 rs
  let rawbits := (List.range 4).foldl (fun rb i => rb.set i (databits.getD i 0)) rawbits
  let self := self.send_raw_data_one_cycle rawbits
  let rawbits := (List.range 4).foldl (fun rb i => rb.set i (databits.getD (i + 4) 0)) rawbits
  self.send_raw_data_one_cycle rawbits

/-- Member function `clear`, lines 176-180. -/
def clear (self : LCDdisplay) : LCDdisplay :=
  let clear_display : List Nat := [0, 0, 0, 0, 0, 0, 0, 1]
  let self := self.send_full_byte COMMAND clear_display
  { self with events := self.events ++ [Event.sleep_ms 10] }

/-- Member function `cursor_off`, lines 182-187. -/
def cursor_off (self : LCDdisplay) : LCDdisplay :=
  let no_cursor : List Nat := [0, 0, 0, 0, 1, 1, 0, 0]
  let self := self.send_full_byte COMMAND no_cursor
  { self with cursor_status := (0, 0) }

/-- Member function `cursor_on()`, lines 189-194. -/
def cursor_on (self : LCDdisplay) : LCDdisplay :=
  let command_cursor : List Nat := [0, 0, 0, 0, 1, 1, 1, 1]
  let self := self.send_full_byte COMMAND command_cursor
  { self with cursor_status := (1, 1) }

/-- Member function `cursor_on(bool blink)`, lines 196-203. -/
def cursor_on_blink (self : LCDdisplay) (blink : Bool) : LCDdisplay :=
  let command_cursor : List Nat := [0, 0, 0, 0, 1, 1, 1, 0]
  let command_cursor := if blink then command_cursor.set 7 1 else command_cursor
  let self := self.send_full_byte COMMAND command_cursor
  { self with cursor_status := (1, command_cursor.getD 7 0) }

/-- Member function `display_off`, lines 205-210. -/
def display_off (self : LCDdisplay) : LCDdisplay :=
  let command_display : List Nat := [0, 0, 0, 0, 1, 0, 0, 0]
  let command_display := command_display.set 7 self.cursor_status.2
  let command_display := command_display.set 6 self.cursor_status.1
  self.send_full_byte COMMAND command_display

/-- Member function `display_on`, lines 212-217. -/
def display_on (self : LCDdisplay) : LCDdisplay :=
  let command_display : List Nat := [0, 0, 0, 0, 1, 1, 0, 0]
  let command_display := command_display.set 7 self.cursor_status.2
  let command_display := command_display.set 6 self.cursor_status.1
  self.send_full_byte COMMAND command_display

/-- Member function `set_backlight`, lines 220-224. -/
def set_backlight (self : LCDdisplay) (brightness : Int) : LCDdisplay :=
  if self.bl_pwm_pin < 30 then
    { self with events := self.events ++ [Event.pwm_set_gpio_level self.bl_pwm_pin brightness] }
  else self

/-- The first half of `init`, lines 236-243: compute the two masks, then
initialise the masked pins, make them outputs and drive them low. -/
def init_pins (self : LCDdisplay) : LCDdisplay :=
  let all_ones : List Nat := [1, 1, 1, 1, 1, 1]
  let self := { self with LCDmask_c := self.pin_values_to_mask all_ones 6 }
  let self := { self with LCDmask := self.pin_values_to_mask all_ones 5 }
  let self := self.emit (Event.gpio_init_mask self.LCDmask_c)
  let self := self.emit (Event.gpio_set_dir_out_masked self.LCDmask_c)
  self.emit (Event.gpio_clr_mask self.LCDmask_c)

/-- Member function `init`, lines 226-268. -/
def init (self : LCDdisplay) : LCDdisplay :=
  let set_function_8 : List Nat := [0, 0, 1, 1, 0]
  let set_function_4a : List Nat := [0, 0, 1, 0, 0]
  let set_function_4 : List Nat := [0, 0, 1, 0, 0, 0, 0, 0]
  let cursor_set : List Nat := [0, 0, 0, 0, 0, 1, 1, 0]
  let display_prop_set : List Nat := [0, 0, 0, 0, 1, 1, 0, 0]
  let self := self.init_pins
  let set_function_4 := if self.no_lines = 2 then set_function_4.set 4 1 else set_function_4
  let self := self.send_raw_data_one_cycle set_function_8
  let self := self.send_raw_data_one_cycle set_function_8
  let self := self.send_raw_data_one_cycle set_function_8
  let self := self.send_raw_data_one_cycle set_function_4a
  let self := self.send_full_byte COMMAND set_function_4
  let self := self.send_full_byte COMMAND cursor_set
  let self := self.send_full_byte COMMAND display_prop_set
  let self := self.clear
  let self := if self.bl_pwm_pin < 30 then self.init_pwm_pin self.bl_pwm_pin else self
  { self with cursor_status := (0, 0) }

/-- Member function `goto_pos`, lines 270-289.  `pos` is a `uint`, so the sums
are taken modulo `2 ^ 32`. -/
def goto_pos (self : LCDdisplay) (pos_i : Int) (line : Int) : LCDdisplay :=
  let eight_bits : List Nat := List.replicate 8 0
  let pos : Nat := (pos_i % 2 ^ 32).toNat
  let pos : Nat :=
    if self.no_lines = 2 then
      ((64 * line + pos + 128) % 2 ^ 32).toNat
    else if self.no_lines = 4 then
      if line = 0 ∨ line = 2 then
        ((64 * (Int.tdiv line 2) + pos + 128) % 2 ^ 32).toNat
      else
        ((64 * (Int.tdiv (line - 1) 2) + 20 + pos + 128) % 2 ^ 32).toNat
    else pos
  self.send_full_byte COMMAND (uint_into_8bits eight_bits pos)

/-- The `while (str[i] != 0)` loop of `print`, lines 295-299, on the
characters from position `i` on. -/
def print_loop (self : LCDdisplay) (eight_bits : List Nat) : List Int → LCDdisplay
  | [] => self
  | c :: cs =>
    if c = 0 then self
    else
      let eight_bits := uint_into_8bits eight_bits (c % 2 ^ 32).toNat
      print_loop (self.send_full_byte DATA eight_bits) eight_bits cs

/-- Member function `print(const char *)`, lines 292-300. -/
def print (self : LCDdisplay) (str : List Int) : LCDdisplay :=
  self.print_loop (List.replicate 8 0) str

/-- The loop of `print_wrapped`, lines 310-317; `i` is the number of
characters already written, the list holds the characters from position `i`
on.  (`i % no_chars` is undefined in C++ for `no_chars = 0`; here it is `i`.) -/
def print_wrapped_loop (self : LCDdisplay) (eight_bits : List Nat) (i : Nat) :
    List Int → LCDdisplay
  | [] => self
  | c :: cs =>
    if c = 0 then self
    else
      let eight_bits := uint_into_8bits eight_bits (c % 2 ^ 32).toNat
      let self := self.send_full_byte DATA eight_bits
      let i := i + 1
      let self :=
        if i % self.no_chars = 0 then self.goto_pos 0 ((i / self.no_chars : Nat) : Int)
        else self
      print_wrapped_loop self eight_bits i cs

/-- Member function `print_wrapped`, lines 304-318. -/
def print_wrapped (self : LCDdisplay) (str : List Int) : LCDdisplay :=
  (self.goto_pos 0 0).print_wrapped_loop (List.replicate 8 0) 0 str

/-- Member function `print(const char *, int)`, lines 321-332. -/
def print_line (self : LCDdisplay) (str : List Int) (line : Int) : LCDdisplay :=
  let _ := line
  (self.goto_pos 0 1).print_loop (List.replicate 8 0) str

/-- Member function `createCustomChar`, lines 334-346.  `location` and the
entries of `charmap` are `uint8_t`: the values are taken modulo 256. -/
def createCustomChar (self : LCDdisplay) (location : Nat) (charmap : List Nat) : LCDdisplay :=
  let location := location % 256
  let command : List Nat := List.replicate 8 0
  let command := uint_into_8bits command (0x40 + location * 8)
  let self := self.send_full_byte COMMAND command
  ((List.range 8).foldl
    (fun (st : LCDdisplay × List Nat) i =>
      let command := uint_into_8bits st.2 (charmap.getD i 0 % 256)
      (st.1.send_full_byte DATA command, command))
    (self, command)).1

/-- Member function `displayChar`, lines 349-353.  `location` is a `uint8_t`. -/
def displayChar (self : LCDdisplay) (location : Nat) : LCDdisplay :=
  let location := location % 256
  let character_code : List Nat := List.replicate 8 0
  let character_code := uint_into_8bits character_code location
  self.send_full_byte DATA character_code

end LCDdisplay

/-! ## Vocabulary of the specification -/

/-- Bit `k` of the number `v` (bit 0 is the least significant). -/
def bit (v k : Nat) : Nat := v / 2 ^ k % 2

/-- Value of a payload's four data positions, position 0 being the most
significant. -/
def nibble_value (raw : List Nat) : Nat :=
  8 * raw.getD 0 0 + 4 * raw.getD 1 0 + 2 * raw.getD 2 0 + raw.getD 3 0

/-- The two payloads that carry the byte `v` under register-select `rs`:
bits 7, 6, 5, 4 and then bits 3, 2, 1, 0, each followed by `rs`. -/
def byte_cycles (rs v : Nat) : List (List Nat) :=
  [[bit v 7, bit v 6, bit v 5, bit v 4, rs], [bit v 3, bit v 2, bit v 1, bit v 0, rs]]

/-! ## Example drivers -/

/-- Driver storage before a constructor has run, with every member zero and
empty histories. -/
def zeroed : LCDdisplay := ⟨0, 0, [], 0, 0, 0, (0, 0), [], []⟩

/-- The 16x2 display of the three example programs,
`LCDdisplay lcd_ctrl(2,3,4,5,14,15,16,2)`. -/
def lcd_ctrl : LCDdisplay := zeroed.ctor 2 3 4 5 14 15 16 2

/-- A one-line display on the same pins, `LCDdisplay(2,3,4,5,14,15,16,1)`. -/
def lcd_16x1 : LCDdisplay := zeroed.ctor 2 3 4 5 14 15 16 1

/-- A four-line display on the same pins, `LCDdisplay(2,3,4,5,14,15,20,4)`. -/
def lcd_20x4 : LCDdisplay := zeroed.ctor 2 3 4 5 14 15 20 4

/-! ## Sequences of public operations -/

/-- One call of a public member function, with its arguments. -/
inductive Op where
  | init
  | clear
  | cursor_off
  | cursor_on
  | cursor_on_blink (blink : Bool)
  | display_off
  | display_on
  | set_backlight (brightness : Int)
  | goto_pos (pos_i line : Int)
  | print (str : List Int)
  | print_wrapped (str : List Int)
  | print_line (str : List Int) (line : Int)
  | createCustomChar (location : Nat) (charmap : List Nat)
  | displayChar (location : Nat)

/-- Effect of one call on the driver. -/
def Op.apply : Op → LCDdisplay → LCDdisplay
  | Op.init, s => s.init
  | Op.clear, s => s.clear
  | Op.cursor_off, s => s.cursor_off
  | Op.cursor_on, s => s.cursor_on
  | Op.cursor_on_blink blink, s => s.cursor_on_blink blink
  | Op.display_off, s => s.display_off
  | Op.display_on, s => s.display_on
  | Op.set_backlight brightness, s => s.set_backlight brightness
  | Op.goto_pos pos_i line, s => s.goto_pos pos_i line
  | Op.print str, s => s.print str
  | Op.print_wrapped str, s => s.print_wrapped str
  | Op.print_line str line, s => s.print_line str line
  | Op.createCustomChar location charmap, s => s.createCustomChar location charmap
  | Op.displayChar location, s => s.displayChar location

/-- Effect of a sequence of calls, made in list order. -/
def run (ops : List Op) (s : LCDdisplay) : LCDdisplay :=
  ops.foldl (fun s op => op.apply s) s

/-- What one call requests for the cursor flags `(visible, blink)`, given the
flags requested before it: the cursor calls and `init` set them, every other
call leaves them. -/
def cursor_request (flags : Nat × Nat) : Op → Nat × Nat
  | Op.init => (0, 0)
  | Op.cursor_off => (0, 0)
  | Op.cursor_on => (1, 1)
  | Op.cursor_on_blink blink => (1, if blink then 1 else 0)
  | _ => flags

/-- The flags `(visible, blink)` set by the most recent cursor call of a
sequence that follows `init`, and `(0, 0)` if there is none. -/
def last_cursor_request (ops : List Op) : Nat × Nat :=
  ops.foldl cursor_request (0, 0)

/-! ## Texts, glyphs and traces -/

/-- The bitmap of the third example program (`customChar`, part3 lines 4-13). -/
def customChar : List Nat :=
  [0b00100, 0b01110, 0b00100, 0b01110, 0b11111, 0b01110, 0b01010, 0b01010]

/-- The 8-bit code of a `char` (signed or unsigned). -/
def char_byte (c : Int) : Nat := (c % 256).toNat

/-- The payloads of a text sent as data bytes, one byte per character. -/
def data_cycles (text : List Int) : List (List Nat) :=
  (text.map (fun c => byte_cycles DATA (char_byte c))).flatten

/-- The characters of a Lean string as `char` values. -/
def chars (text : String) : List Int := text.toList.map (fun c => (c.toNat : Int))

/-- The hardware calls of one nibble cycle with payload `raw` on the driver
`s`: masked write of the payload word, enable high, 5 ms, enable low, 5 ms. -/
def strobe (s : LCDdisplay) (raw : List Nat) : List Event :=
  [Event.gpio_put_masked s.LCDmask (s.pin_values_to_mask raw 5),
   Event.gpio_put (s.LCDpins.getD E 0) HIGH,
   Event.sleep_ms 5,
   Event.gpio_put (s.LCDpins.getD E 0) LOW,
   Event.sleep_ms 5]

/-- The payloads of the power-on handshake with function-set byte
`function_set`: the nibble `0b0011` three times, the nibble `0b0010` once, then
the bytes `function_set`, `0x06`, `0x0C`, `0x01`, all with register-select 0. -/
def handshake (function_set : Nat) : List (List Nat) :=
  [[0, 0, 1, 1, 0], [0, 0, 1, 1, 0], [0, 0, 1, 1, 0], [0, 0, 1, 0, 0]]
    ++ byte_cycles 0 function_set ++ byte_cycles 0 0x06 ++ byte_cycles 0 0x0C
    ++ byte_cycles 0 0x01

/-- The value of the `char` with 8-bit code `k` where `char` is unsigned. -/
def unsigned_char (k : Nat) : Int := (k : Int)

/-- The value of the `char` with 8-bit code `k` where `char` is signed
(two's complement). -/
def signed_char (k : Nat) : Int := if k < 128 then (k : Int) else (k : Int) - 256

/-- Printing at row 1, column 0, in the words of the specification: position
the cursor with `goto_pos(0, 1)`, then `print(text)`. -/
def print_at_row_one (s : LCDdisplay) (text : List Int) : LCDdisplay :=
  (s.goto_pos 0 1).print text

/-! ## Configuration and strobe discipline -/

/-- The driver `t` has the pin assignment, geometry, backlight pin and masks
of the driver `s`. -/
def frame (s t : LCDdisplay) : Prop :=
  t.LCDpins = s.LCDpins ∧ t.no_chars = s.no_chars ∧ t.no_lines = s.no_lines
    ∧ t.bl_pwm_pin = s.bl_pwm_pin ∧ t.LCDmask = s.LCDmask ∧ t.LCDmask_c = s.LCDmask_c

/-- Check of a trace of hardware calls against the strobe discipline for the
enable pin `e`.  The check starts with the enable line at the given level
(`true` is high) and returns the level at the end of the trace, or `none` when
the trace breaks the discipline: a call other than a delay or a write of the
enable pin itself is made while the line is high, or a masked write has the
enable pin in its mask. -/
def discipline (e : Nat) : Bool → List Event → Option Bool
  | high, [] => some high
  | high, Event.sleep_ms _ :: rest => discipline e high rest
  | high, Event.gpio_put pin value :: rest =>
    if pin = e then discipline e (decide (value ≠ 0)) rest
    else if high then none else discipline e false rest
  | high, Event.gpio_put_masked mask _ :: rest =>
    if high ∨ bit mask e = 1 then none else discipline e false rest
  | high, Event.gpio_init_mask _ :: rest =>
    if high then none else discipline e false rest
  | high, Event.gpio_set_dir_out_masked _ :: rest =>
    if high then none else discipline e false rest
  | high, Event.gpio_clr_mask _ :: rest =>
    if high then none else discipline e false rest
  | high, Event.gpio_set_function_pwm _ :: rest =>
    if high then none else discipline e false rest
  | high, Event.pwm_init _ _ _ :: rest =>
    if high then none else discipline e false rest
  | high, Event.pwm_set_gpio_level _ _ :: rest =>
    if high then none else discipline e false rest

/-- The driver `s` strobes with enable pin `e`, its payload mask leaves `e`
out, and its two masks are the ones `init` computes from the pins. -/
def ready (e : Nat) (s : LCDdisplay) : Prop :=
  s.LCDpins.getD E 0 = e ∧ bit s.LCDmask e = 0
    ∧ s.LCDmask = s.pin_values_to_mask [1, 1, 1, 1, 1, 1] 5
    ∧ s.LCDmask_c = s.pin_values_to_mask [1, 1, 1, 1, 1, 1] 6

/-- The step from `s` to `t` keeps the configuration and adds to the history
of hardware calls a stretch that follows the strobe discipline, with the
enable line low before and after. -/
def quiet_step (e : Nat) (s t : LCDdisplay) : Prop :=
  frame s t ∧ ∃ new, t.events = s.events ++ new ∧ discipline e false new = some false

/-- The driver `t` has the pin assignment and the geometry of the driver `s`. -/
def same_setup (s t : LCDdisplay) : Prop :=
  t.LCDpins = s.LCDpins ∧ t.no_chars = s.no_chars ∧ t.no_lines = s.no_lines

/-! ## Reading the controller's view back from the payloads -/

/-- The bytes that a sequence of payloads carries, two payloads per byte: the
register-select value of the first payload and the value
`16 * high nibble + low nibble`. -/
def decode_bytes : List (List Nat) → List (Nat × Nat)
  | hi :: lo :: rest => (hi.getD 4 0, 16 * nibble_value hi + nibble_value lo) :: decode_bytes rest
  | _ => []

/-- A command byte of the form `0b00001DCB` (display control). -/
def is_display_control (b : Nat × Nat) : Bool :=
  decide (b.1 = 0) && decide (8 ≤ b.2) && decide (b.2 < 16)

/-- The most recent display-control byte in a sequence of payloads, if any. -/
def last_display_control (trace : List (List Nat)) : Option (Nat × Nat) :=
  ((decode_bytes trace).filter is_display_control).getLast?

/-- The display-memory address of a position before the set-address flag is
added: `64 * row + column` on two lines, and the two-bank formula of `goto_pos`
otherwise. -/
def ddram_address (lines : Nat) (column row : Int) : Int :=
  if lines = 2 then 64 * row + column
  else if row = 0 ∨ row = 2 then 64 * (Int.tdiv row 2) + column
  else 64 * (Int.tdiv (row - 1) 2) + 20 + column

/-- The calls of C19 on a display of the given geometry: `clear`, the cursor
and display toggles, `print`, `displayChar`, `createCustomChar` with a slot in
0..7, and `goto_pos` with a position inside the geometry. -/
def in_geometry (columns lines : Nat) : Op → Bool
  | Op.clear => true
  | Op.cursor_off => true
  | Op.cursor_on => true
  | Op.cursor_on_blink _ => true
  | Op.display_off => true
  | Op.display_on => true
  | Op.print _ => true
  | Op.displayChar _ => true
  | Op.createCustomChar location _ => decide (location ≤ 7)
  | Op.goto_pos pos_i line =>
    decide (0 ≤ pos_i) && decide (pos_i < columns) && decide (0 ≤ line) && decide (line < lines)
  | _ => false

/-- For a `goto_pos` call: the address of its position is below 128, so that
the address with the set-address flag fits in a byte. -/
def address_fits (lines : Nat) : Op → Bool
  | Op.goto_pos pos_i line => decide (ddram_address lines pos_i line < 128)
  | _ => true

/-- The payloads of a sequence of bytes `(register-select, value)`. -/
def bytes_to_cycles (bs : List (Nat × Nat)) : List (List Nat) :=
  (bs.map (fun b => byte_cycles b.1 b.2)).flatten

/-- The flags `st` are bits 1 and 0 of the most recent display-control byte of
the byte sequence `bs`. -/
def tracked (bs : List (Nat × Nat)) (st : Nat × Nat) : Prop :=
  ∃ b, (bs.filter is_display_control).getLast? = some (0, b) ∧ st = (bit b 1, bit b 0)

/-- A two-line display 200 characters wide, `LCDdisplay(2,3,4,5,14,15,200,2)`. -/
def lcd_200x2 : LCDdisplay := zeroed.ctor 2 3 4 5 14 15 200 2

/-! ## Basic facts about the transfer functions -/

open LCDdisplay

theorem list_length_eight {α : Type} (l : List α) (h : l.length = 8) :
    ∃ a b c d e f g k, l = [a, b, c, d, e, f, g, k] := by
  match l, h with
  | [a, b, c, d, e, f, g, k], _ => exact ⟨a, b, c, d, e, f, g, k, rfl⟩

/-- On an array of eight slots `uint_into_8bits` leaves the bits of the
argument, most significant first, whatever the array held before. -/
theorem uint_into_8bits_eq (raw_bits : List Nat) (v : Nat) (h : raw_bits.length = 8) :
    uint_into_8bits raw_bits v
      = [bit v 7, bit v 6, bit v 5, bit v 4, bit v 3, bit v 2, bit v 1, bit v 0] := by
  obtain ⟨a, b, c, d, e, f, g, k, rfl⟩ := list_length_eight raw_bits h
  simp only [uint_into_8bits, bit, List.range, List.range.loop, List.foldl, List.set,
    Nat.shiftRight_succ, Nat.shiftRight_zero]
  simp [Nat.div_div_eq_div_mul]

theorem uint_into_8bits_length (raw_bits : List Nat) (v : Nat) (h : raw_bits.length = 8) :
    (uint_into_8bits raw_bits v).length = 8 := by
  rw [uint_into_8bits_eq raw_bits v h]; rfl

theorem send_raw_cycles (s : LCDdisplay) (raw : List Nat) :
    (s.send_raw_data_one_cycle raw).cycles = s.cycles ++ [raw] := rfl

theorem send_full_byte_cycles (s : LCDdisplay) (rs b0 b1 b2 b3 b4 b5 b6 b7 : Nat) :
    (s.send_full_byte rs [b0, b1, b2, b3, b4, b5, b6, b7]).cycles
      = s.cycles ++ [[b0, b1, b2, b3, rs], [b4, b5, b6, b7, rs]] := by
  simp [send_full_byte, send_raw_data_one_cycle, List.range, List.range.loop]

/-- Sending the array that `uint_into_8bits` produced from `v` issues the two
payloads of `byte_cycles`. -/
theorem send_byte_cycles (s : LCDdisplay) (rs v : Nat) (raw_bits : List Nat)
    (h : raw_bits.length = 8) :
    (s.send_full_byte rs (uint_into_8bits raw_bits v)).cycles
      = s.cycles ++ byte_cycles rs v := by
  rw [uint_into_8bits_eq raw_bits v h, send_full_byte_cycles]; rfl

@[simp] theorem send_full_byte_no_lines (s : LCDdisplay) (rs : Nat) (d : List Nat) :
    (s.send_full_byte rs d).no_lines = s.no_lines := rfl

@[simp] theorem send_full_byte_no_chars (s : LCDdisplay) (rs : Nat) (d : List Nat) :
    (s.send_full_byte rs d).no_chars = s.no_chars := rfl

@[simp] theorem send_full_byte_cursor_status (s : LCDdisplay) (rs : Nat) (d : List Nat) :
    (s.send_full_byte rs d).cursor_status = s.cursor_status := rfl

/-- The byte carried by two payloads is recovered from their nibble values. -/
theorem nibble_reassembly (v rs : Nat) (hv : v < 256) :
    (nibble_value [bit v 7, bit v 6, bit v 5, bit v 4, rs] <<< 4)
      ||| nibble_value [bit v 3, bit v 2, bit v 1, bit v 0, rs] = v := by
  have hlo : nibble_value [bit v 3, bit v 2, bit v 1, bit v 0, rs] = v % 16 := by
    simp [nibble_value, bit]; omega
  have hhi : nibble_value [bit v 7, bit v 6, bit v 5, bit v 4, rs] = v / 16 := by
    simp [nibble_value, bit]; omega
  rw [hlo, hhi, Nat.shiftLeft_eq, Nat.mul_comm,
    ← Nat.mul_add_lt_is_or (Nat.mod_lt v (by decide)) (v / 16)]
  exact Nat.div_add_mod v 16

/-! ## C1: a byte travels as two nibbles, most significant first -/

/-- C1: for every byte `v < 256` and register-select value `rs`, converting
`v` with `uint_into_8bits` and sending the result with `send_full_byte` adds
exactly two calls of `send_raw_data_one_cycle` to the history: the first with
bits 7, 6, 5, 4 of `v` in positions 0..3, the second with bits 3, 2, 1, 0, both
with `rs` in position 4; and the first nibble shifted left by four, or-ed with
the second, is `v`. -/
theorem C1_byte_as_two_nibbles (s : LCDdisplay) (raw_bits : List Nat) (v rs : Nat)
    (hlen : raw_bits.length = 8) (hv : v < 256) :
    (s.send_full_byte rs (uint_into_8bits raw_bits v)).cycles
        = s.cycles ++ [[bit v 7, bit v 6, bit v 5, bit v 4, rs],
                       [bit v 3, bit v 2, bit v 1, bit v 0, rs]]
      ∧ (nibble_value [bit v 7, bit v 6, bit v 5, bit v 4, rs] <<< 4)
          ||| nibble_value [bit v 3, bit v 2, bit v 1, bit v 0, rs] = v :=
  ⟨send_byte_cycles s rs v raw_bits hlen, nibble_reassembly v rs hv⟩

/-- Witness for C1: the byte `0xA5` sent as data on the example display. -/
theorem C1_byte_as_two_nibbles_witness :
    (lcd_ctrl.send_full_byte 1 (uint_into_8bits (List.replicate 8 0) 0xA5)).cycles
        = lcd_ctrl.cycles ++ [[bit 0xA5 7, bit 0xA5 6, bit 0xA5 5, bit 0xA5 4, 1],
                              [bit 0xA5 3, bit 0xA5 2, bit 0xA5 1, bit 0xA5 0, 1]]
      ∧ (nibble_value [bit 0xA5 7, bit 0xA5 6, bit 0xA5 5, bit 0xA5 4, 1] <<< 4)
          ||| nibble_value [bit 0xA5 3, bit 0xA5 2, bit 0xA5 1, bit 0xA5 0, 1] = 0xA5 :=
  C1_byte_as_two_nibbles lcd_ctrl (List.replicate 8 0) 0xA5 1 (by decide) (by decide)

/-! ## C2: the pin mapper -/


theorem bit_le_one (v k : Nat) : bit v k ≤ 1 := by
  unfold bit; omega

theorem bit_double_zero (x b : Nat) (hb : b ≤ 1) : bit (2 * x + b) 0 = b := by
  unfold bit; simp; omega

theorem bit_double_succ (x b p : Nat) (hb : b ≤ 1) : bit (2 * x + b) (p + 1) = bit x p := by
  unfold bit
  rw [pow_succ, Nat.mul_comm (2 ^ p) 2, ← Nat.div_div_eq_div_mul]
  have : (2 * x + b) / 2 = x := by omega
  rw [this]

theorem pack_rounds_succ (pa : List Nat) (n : Nat) :
    pack_rounds pa (n + 1)
      = ((pack_rounds pa n <<< 1) % 2 ^ 32 + pa.getD (31 - n) 0) % 2 ^ 32 := by
  simp [pack_rounds, List.range_succ, List.foldl_append]

theorem pack_rounds_spec (pa : List Nat) (hpa : ∀ q, pa.getD q 0 ≤ 1) (n : Nat) (hn : n ≤ 32) :
    pack_rounds pa n < 2 ^ n ∧
      ∀ p, bit (pack_rounds pa n) p = if p < n then pa.getD (32 - n + p) 0 else 0 := by
  induction n with
  | zero => 
    refine ⟨by simp [pack_rounds], fun p => ?_⟩
    simp [pack_rounds, bit]
  | succ n ih =>
    obtain ⟨hlt, hbits⟩ := ih (by omega)
    have hb := hpa (31 - n)
    have hpow : 2 ^ (n + 1) ≤ 2 ^ 32 := Nat.pow_le_pow_right (by decide) hn
    have hstep : pack_rounds pa (n + 1) = 2 * pack_rounds pa n + pa.getD (31 - n) 0 := by
      rw [pack_rounds_succ, Nat.shiftLeft_eq, pow_one, Nat.mul_comm]
      have h2 : 2 * pack_rounds pa n + pa.getD (31 - n) 0 < 2 ^ (n + 1) := by
        rw [pow_succ]; omega
      rw [Nat.mod_eq_of_lt (by omega), Nat.mod_eq_of_lt (by omega)]
    refine ⟨by rw [hstep, pow_succ]; omega, fun p => ?_⟩
    rw [hstep]
    cases p with
    | zero =>
      rw [bit_double_zero _ _ hb]
      simp
    | succ p =>
      rw [bit_double_succ _ _ _ hb, hbits p]
      by_cases hp : p < n
      · simp only [hp, if_true, Nat.succ_lt_succ hp]
        congr 1; omega
      · simp [hp]

theorem getD_set_eq (l : List Nat) (i j x : Nat) :
    (l.set i x).getD j 0 = if i = j ∧ i < l.length then x else l.getD j 0 := by
  simp only [List.getD_eq_getElem?_getD, List.getElem?_set]
  by_cases h : i = j
  · subst h
    by_cases h2 : i < l.length
    · simp [h2]
    · simp [h2, List.getElem?_eq_none (Nat.le_of_not_lt h2)]
  · simp [h]

theorem pinArray_succ (s : LCDdisplay) (raw : List Nat) (n : Nat) :
    s.pinArray raw (n + 1)
      = (s.pinArray raw n).set (s.LCDpins.getD n 0) (raw.getD n 0) := by
  simp [pinArray, List.range_succ, List.foldl_append]

theorem pinArray_length (s : LCDdisplay) (raw : List Nat) (n : Nat) :
    (s.pinArray raw n).length = 32 := by
  induction n with
  | zero => simp [pinArray]
  | succ n ih => rw [pinArray_succ, List.length_set, ih]

/-- Contents of `pinArray` after `n` assignments, for distinct pins below 32. -/
theorem pinArray_spec (s : LCDdisplay) (raw : List Nat) (n : Nat)
    (hinj : ∀ i j, i < n → j < n → s.LCDpins.getD i 0 = s.LCDpins.getD j 0 → i = j)
    (hlt : ∀ i, i < n → s.LCDpins.getD i 0 < 32) :
    (∀ i, i < n → (s.pinArray raw n).getD (s.LCDpins.getD i 0) 0 = raw.getD i 0) ∧
    (∀ p, (∀ i, i < n → s.LCDpins.getD i 0 ≠ p) → (s.pinArray raw n).getD p 0 = 0) := by
  induction n with
  | zero =>
    refine ⟨fun i hi => absurd hi (Nat.not_lt_zero i), fun p _ => ?_⟩
    simp only [pinArray, List.range_zero, List.foldl_nil, List.getD_eq_getElem?_getD,
      List.getElem?_replicate]
    split <;> rfl
  | succ n ih =>
    obtain ⟨ih1, ih2⟩ := ih (fun i j hi hj => hinj i j (by omega) (by omega))
      (fun i hi => hlt i (by omega))
    refine ⟨fun i hi => ?_, fun p hp => ?_⟩
    · rw [pinArray_succ, getD_set_eq, pinArray_length]
      by_cases hin : i = n
      · subst hin
        rw [if_pos ⟨rfl, hlt i hi⟩]
      · have hne : s.LCDpins.getD n 0 ≠ s.LCDpins.getD i 0 := fun h =>
          hin ((hinj n i (by omega) hi h).symm)
        simp only [hne, false_and, if_false]
        exact ih1 i (by omega)
    · rw [pinArray_succ, getD_set_eq]
      have hne : s.LCDpins.getD n 0 ≠ p := hp n (by omega)
      simp only [hne, false_and, if_false]
      exact ih2 p (fun i hi => hp i (by omega))


theorem pins_getD_inj (pins : List Nat) (hnodup : pins.Nodup) (n : Nat) (hn : n ≤ pins.length) :
    ∀ i j, i < n → j < n → pins.getD i 0 = pins.getD j 0 → i = j := by
  intro i j hi hj h
  have hi2 : i < pins.length := by omega
  have hj2 : j < pins.length := by omega
  rw [List.getD_eq_getElem _ _ hi2, List.getD_eq_getElem _ _ hj2] at h
  exact (List.Nodup.getElem_inj_iff hnodup).1 h

theorem pins_getD_lt (pins : List Nat) (hlt : ∀ p ∈ pins, p < 32) (n : Nat)
    (hn : n ≤ pins.length) : ∀ i, i < n → pins.getD i 0 < 32 := by
  intro i hi
  have hi2 : i < pins.length := by omega
  rw [List.getD_eq_getElem _ _ hi2]
  exact hlt _ (List.getElem_mem hi2)

theorem pinArray_le_one (s : LCDdisplay) (raw : List Nat) (n : Nat)
    (hinj : ∀ i j, i < n → j < n → s.LCDpins.getD i 0 = s.LCDpins.getD j 0 → i = j)
    (hlt : ∀ i, i < n → s.LCDpins.getD i 0 < 32)
    (hbits : ∀ i, i < n → raw.getD i 0 ≤ 1) :
    ∀ q, (s.pinArray raw n).getD q 0 ≤ 1 := by
  intro q
  obtain ⟨h1, h2⟩ := pinArray_spec s raw n hinj hlt
  by_cases h : ∃ i, i < n ∧ s.LCDpins.getD i 0 = q
  · obtain ⟨i, hi, rfl⟩ := h
    rw [h1 i hi]; exact hbits i hi
  · rw [h2 q (fun i hi heq => h ⟨i, hi, heq⟩)]
    exact Nat.zero_le 1

/-- C2: for six pairwise distinct pins below 32, a length `n ≤ 6` and input
values in {0, 1}, `pin_values_to_mask` returns a 32-bit word whose bit at
position `LCDpins[i]` is `raw_bits[i]` for every `i < n` and whose bits at all
other positions are zero; when the first `n` inputs are all 1 exactly `n` bits
of the word are set. -/
theorem C2_pin_values_to_mask (s : LCDdisplay) (raw_bits : List Nat) (n : Nat)
    (hpins : s.LCDpins.length = 6) (hnodup : s.LCDpins.Nodup)
    (hlt : ∀ p ∈ s.LCDpins, p < 32) (hn : n ≤ 6)
    (hbits : ∀ i, i < n → raw_bits.getD i 0 ≤ 1) :
    s.pin_values_to_mask raw_bits n < 2 ^ 32 ∧
    (∀ i, i < n →
      bit (s.pin_values_to_mask raw_bits n) (s.LCDpins.getD i 0) = raw_bits.getD i 0) ∧
    (∀ p, (∀ i, i < n → s.LCDpins.getD i 0 ≠ p) →
      bit (s.pin_values_to_mask raw_bits n) p = 0) ∧
    ((∀ i, i < n → raw_bits.getD i 0 = 1) →
      ((Finset.range 32).filter
        (fun p => bit (s.pin_values_to_mask raw_bits n) p = 1)).card = n) := by
  have hinj := pins_getD_inj s.LCDpins hnodup n (by omega)
  have hpl := pins_getD_lt s.LCDpins hlt n (by omega)
  have hpa := pinArray_le_one s raw_bits n hinj hpl hbits
  obtain ⟨h1, h2⟩ := pinArray_spec s raw_bits n hinj hpl
  obtain ⟨hsize, hbit⟩ := pack_rounds_spec (s.pinArray raw_bits n) hpa 32 (le_refl _)
  have hbit1 : ∀ i, i < n →
      bit (s.pin_values_to_mask raw_bits n) (s.LCDpins.getD i 0) = raw_bits.getD i 0 := by
    intro i hi
    unfold pin_values_to_mask
    rw [hbit, if_pos (hpl i hi)]
    simpa using h1 i hi
  have hbit0 : ∀ p, (∀ i, i < n → s.LCDpins.getD i 0 ≠ p) →
      bit (s.pin_values_to_mask raw_bits n) p = 0 := by
    intro p hp
    unfold pin_values_to_mask
    rw [hbit]
    split
    · simpa using h2 p hp
    · rfl
  refine ⟨hsize, hbit1, hbit0, fun hones => ?_⟩
  have himg : (Finset.range 32).filter
        (fun p => bit (s.pin_values_to_mask raw_bits n) p = 1)
      = (Finset.range n).image (fun i => s.LCDpins.getD i 0) := by
    ext p
    simp only [Finset.mem_filter, Finset.mem_range, Finset.mem_image]
    constructor
    · rintro ⟨_, hp1⟩
      by_contra hno
      have := hbit0 p (fun i hi heq => hno ⟨i, hi, heq⟩)
      omega
    · rintro ⟨i, hi, rfl⟩
      exact ⟨hpl i hi, by rw [hbit1 i hi, hones i hi]⟩
  rw [himg, Finset.card_image_of_injOn, Finset.card_range]
  intro i hi j hj heq
  exact hinj i j (by simpa using hi) (by simpa using hj) heq


/-- Witness for C2: the payload mask of the example display (five ones). -/
theorem C2_pin_values_to_mask_witness :
    lcd_ctrl.pin_values_to_mask [1, 1, 1, 1, 1, 1] 5 < 2 ^ 32 ∧
    ((Finset.range 32).filter
      (fun p => bit (lcd_ctrl.pin_values_to_mask [1, 1, 1, 1, 1, 1] 5) p = 1)).card = 5 :=
  have h := C2_pin_values_to_mask lcd_ctrl [1, 1, 1, 1, 1, 1] 5 (by decide) (by decide)
    (by decide) (by decide) (by decide)
  ⟨h.1, h.2.2.2 (by decide)⟩

/-! ## C3, C4, C5: the address calculator -/

@[simp] theorem send_full_byte_LCDpins (s : LCDdisplay) (rs : Nat) (d : List Nat) :
    (s.send_full_byte rs d).LCDpins = s.LCDpins := rfl

@[simp] theorem send_full_byte_LCDmask (s : LCDdisplay) (rs : Nat) (d : List Nat) :
    (s.send_full_byte rs d).LCDmask = s.LCDmask := rfl

@[simp] theorem send_full_byte_bl_pwm_pin (s : LCDdisplay) (rs : Nat) (d : List Nat) :
    (s.send_full_byte rs d).bl_pwm_pin = s.bl_pwm_pin := rfl

/-- Conversion of a small non-negative `int` to `uint` keeps its value. -/
theorem mod_two_pow_toNat (x : Nat) (h : x < 2 ^ 32) : (((x : Int)) % 2 ^ 32).toNat = x := by
  have : ((x : Int)) % 2 ^ 32 = (x : Int) := Int.emod_eq_of_lt (by omega) (by exact_mod_cast h)
  rw [this]; simp

/-- The byte of `goto_pos` in the `case 2` branch. -/
theorem goto_pos_two_lines (s : LCDdisplay) (column row : Nat) (h2 : s.no_lines = 2)
    (hsmall : 64 * row + column + 128 < 2 ^ 32) :
    (s.goto_pos column row).cycles
      = s.cycles ++ byte_cycles COMMAND (64 * row + column + 0x80) := by
  unfold goto_pos
  simp only [h2, if_true]
  rw [send_byte_cycles _ _ _ _ (by simp)]
  congr 2
  have h1 : ((column : Int) % 2 ^ 32).toNat = column := mod_two_pow_toNat column (by omega)
  rw [h1]
  have : (64 * (row : Int) + (column : Int) + 128) = ((64 * row + column + 128 : Nat) : Int) := by
    push_cast; ring
  rw [this, mod_two_pow_toNat _ (by omega)]

/-- The byte of `goto_pos` in the `default` branch: the column, unchanged. -/
theorem goto_pos_default (s : LCDdisplay) (column : Nat) (line : Int)
    (h2 : s.no_lines ≠ 2) (h4 : s.no_lines ≠ 4) (hsmall : column < 2 ^ 32) :
    (s.goto_pos column line).cycles = s.cycles ++ byte_cycles COMMAND column := by
  unfold goto_pos
  simp only [h2, h4, if_false]
  rw [send_byte_cycles _ _ _ _ (by simp), mod_two_pow_toNat column hsmall]

/-- The byte of `goto_pos` in the `case 4` branch, for an explicit offset. -/
theorem goto_pos_four_lines (s : LCDdisplay) (column : Nat) (row : Int) (off : Nat)
    (h4 : s.no_lines = 4) (hsmall : off + column + 128 < 2 ^ 32)
    (hoff : (if row = 0 ∨ row = 2 then 64 * (Int.tdiv row 2)
              else 64 * (Int.tdiv (row - 1) 2) + 20) = (off : Int)) :
    (s.goto_pos column row).cycles = s.cycles ++ byte_cycles COMMAND (off + column + 0x80) := by
  unfold goto_pos
  have h42 : ¬ (4 = 2) := by decide
  simp only [h4, h42, if_false, if_true]
  rw [send_byte_cycles _ _ _ _ (by simp)]
  congr 2
  have h1 : ((column : Int) % 2 ^ 32).toNat = column := mod_two_pow_toNat column (by omega)
  rw [h1]
  have hcast : ((off : Int) + (column : Int) + 128) = ((off + column + 128 : Nat) : Int) := by
    push_cast; ring
  split
  · rename_i hr
    rw [if_pos hr] at hoff
    rw [hoff, hcast, mod_two_pow_toNat _ (by omega)]
  · rename_i hr
    rw [if_neg hr] at hoff
    rw [hoff, hcast, mod_two_pow_toNat _ (by omega)]

/-- C3 (evaluation of the code where the claim fails): on a one-line display
`goto_pos(column, row)` with `column < 128` sends the command byte `column`
itself, whose top bit (position 0 of the first payload) is 0, not 1. -/
theorem C3_goto_pos_one_line_top_bit_clear (s : LCDdisplay) (column : Nat) (row : Int)
    (h1 : s.no_lines = 1) (hcol : column < 128) :
    (s.goto_pos column row).cycles
      = s.cycles ++ [[0, bit column 6, bit column 5, bit column 4, 0],
                     [bit column 3, bit column 2, bit column 1, bit column 0, 0]] := by
  rw [goto_pos_default s column row (by omega) (by omega) (by omega)]
  have h7 : bit column 7 = 0 := by unfold bit; omega
  simp [byte_cycles, COMMAND, h7]

/-- Witness for C3: `goto_pos(0, 0)` on the one-line example display. -/
theorem C3_goto_pos_one_line_top_bit_clear_witness :
    (lcd_16x1.goto_pos 0 0).cycles
      = lcd_16x1.cycles ++ [[0, bit 0 6, bit 0 5, bit 0 4, 0],
                            [bit 0 3, bit 0 2, bit 0 1, bit 0 0, 0]] :=
  C3_goto_pos_one_line_top_bit_clear lcd_16x1 0 0 (by decide) (by decide)

/-- C4: on a two-line display, for a row and a column with
`64 * row + column < 128` (which leaves only the rows 0 and 1),
`goto_pos(column, row)` adds exactly the two payloads of one command byte, and
that byte is `64 * row + column + 0x80`. -/
theorem C4_goto_pos_two_lines (s : LCDdisplay) (column row : Nat) (h2 : s.no_lines = 2)
    (hcol : 64 * row + column < 128) :
    (s.goto_pos column row).cycles
        = s.cycles ++ byte_cycles COMMAND (64 * row + column + 0x80)
      ∧ COMMAND = 0 ∧ 64 * row + column + 0x80 < 256 :=
  ⟨goto_pos_two_lines s column row h2 (by omega), rfl, by omega⟩

/-- Witness for C4: position (3, 1) on the example display gives byte `0xC3`. -/
theorem C4_goto_pos_two_lines_witness :
    (lcd_ctrl.goto_pos 3 1).cycles = lcd_ctrl.cycles ++ byte_cycles COMMAND 0xC3 :=
  (C4_goto_pos_two_lines lcd_ctrl 3 1 (by decide) (by decide)).1

/-- C5: on a four-line display, for a column with `84 + column < 128`,
`goto_pos(column, row)` adds exactly the two payloads of one command byte:
`column + 0x80` for row 0, `column + 20 + 0x80` for row 1,
`64 + column + 0x80` for row 2, `64 + 20 + column + 0x80` for row 3. -/
theorem C5_goto_pos_four_lines (s : LCDdisplay) (column : Nat) (h4 : s.no_lines = 4)
    (hcol : 84 + column < 128) :
    (s.goto_pos column 0).cycles = s.cycles ++ byte_cycles COMMAND (column + 0x80)
      ∧ (s.goto_pos column 1).cycles = s.cycles ++ byte_cycles COMMAND (column + 20 + 0x80)
      ∧ (s.goto_pos column 2).cycles = s.cycles ++ byte_cycles COMMAND (64 + column + 0x80)
      ∧ (s.goto_pos column 3).cycles
          = s.cycles ++ byte_cycles COMMAND (64 + 20 + column + 0x80)
      ∧ COMMAND = 0 ∧ 64 + 20 + column + 0x80 < 256 := by
  refine ⟨?_, ?_, ?_, ?_, rfl, by omega⟩
  · have h := goto_pos_four_lines s column 0 0 h4 (by omega) (by decide)
    simpa using h
  · have h := goto_pos_four_lines s column 1 20 h4 (by omega) (by decide)
    rw [h]; congr 2; omega
  · have h := goto_pos_four_lines s column 2 64 h4 (by omega) (by decide)
    rw [h]
  · have h := goto_pos_four_lines s column 3 84 h4 (by omega) (by decide)
    rw [h]

/-- Witness for C5: column 5 of row 3 on the 20x4 display gives byte `0xD9`. -/
theorem C5_goto_pos_four_lines_witness :
    (lcd_20x4.goto_pos 5 3).cycles = lcd_20x4.cycles ++ byte_cycles COMMAND 0xD9 :=
  (C5_goto_pos_four_lines lcd_20x4 5 (by decide) (by decide)).2.2.2.1

/-! ## C6: the display toggles resend the tracked cursor flags -/

@[simp] theorem send_raw_cursor_status (s : LCDdisplay) (raw : List Nat) :
    (s.send_raw_data_one_cycle raw).cursor_status = s.cursor_status := rfl

@[simp] theorem clear_cursor_status (s : LCDdisplay) :
    s.clear.cursor_status = s.cursor_status := rfl

@[simp] theorem display_off_cursor_status (s : LCDdisplay) :
    s.display_off.cursor_status = s.cursor_status := rfl

@[simp] theorem display_on_cursor_status (s : LCDdisplay) :
    s.display_on.cursor_status = s.cursor_status := rfl

@[simp] theorem set_backlight_cursor_status (s : LCDdisplay) (brightness : Int) :
    (s.set_backlight brightness).cursor_status = s.cursor_status := by
  unfold set_backlight; split <;> rfl

@[simp] theorem goto_pos_cursor_status (s : LCDdisplay) (pos_i line : Int) :
    (s.goto_pos pos_i line).cursor_status = s.cursor_status := rfl

@[simp] theorem displayChar_cursor_status (s : LCDdisplay) (location : Nat) :
    (s.displayChar location).cursor_status = s.cursor_status := rfl

@[simp] theorem print_loop_cursor_status (str : List Int) :
    ∀ (s : LCDdisplay) (eb : List Nat),
      (s.print_loop eb str).cursor_status = s.cursor_status := by
  induction str with
  | nil => intro s eb; rfl
  | cons c cs ih =>
    intro s eb
    unfold print_loop
    split
    · rfl
    · simp only [ih, send_full_byte_cursor_status]

@[simp] theorem print_wrapped_loop_cursor_status (str : List Int) :
    ∀ (s : LCDdisplay) (eb : List Nat) (i : Nat),
      (s.print_wrapped_loop eb i str).cursor_status = s.cursor_status := by
  induction str with
  | nil => intro s eb i; rfl
  | cons c cs ih =>
    intro s eb i
    unfold print_wrapped_loop
    split
    · rfl
    · simp only [ih]
      split <;> simp

@[simp] theorem print_cursor_status (s : LCDdisplay) (str : List Int) :
    (s.print str).cursor_status = s.cursor_status := by
  simp [print]

@[simp] theorem print_wrapped_cursor_status (s : LCDdisplay) (str : List Int) :
    (s.print_wrapped str).cursor_status = s.cursor_status := by
  simp [print_wrapped]

@[simp] theorem print_line_cursor_status (s : LCDdisplay) (str : List Int) (line : Int) :
    (s.print_line str line).cursor_status = s.cursor_status := by
  simp [print_line]

@[simp] theorem createCustomChar_cursor_status (s : LCDdisplay) (location : Nat)
    (charmap : List Nat) :
    (s.createCustomChar location charmap).cursor_status = s.cursor_status := by
  simp [createCustomChar, List.range, List.range.loop]

@[simp] theorem init_cursor_status (s : LCDdisplay) : s.init.cursor_status = (0, 0) := rfl

/-- Every call leaves in `cursor_status` what `cursor_request` describes. -/
theorem apply_cursor_status (op : Op) (s : LCDdisplay) :
    (op.apply s).cursor_status = cursor_request s.cursor_status op := by
  cases op with
  | cursor_on_blink blink => cases blink <;> rfl
  | _ => simp [Op.apply, cursor_request] <;> rfl

theorem run_cursor_status (ops : List Op) :
    ∀ s : LCDdisplay, (run ops s).cursor_status = ops.foldl cursor_request s.cursor_status := by
  induction ops with
  | nil => intro s; rfl
  | cons op ops ih =>
    intro s
    simp only [run, List.foldl_cons] at ih ⊢
    rw [ih, apply_cursor_status]

theorem cursor_request_le_one (flags : Nat × Nat) (op : Op)
    (h : flags.1 ≤ 1 ∧ flags.2 ≤ 1) :
    (cursor_request flags op).1 ≤ 1 ∧ (cursor_request flags op).2 ≤ 1 := by
  cases op with
  | cursor_on_blink blink => cases blink <;> simp [cursor_request]
  | _ => simp [cursor_request, h]

theorem foldl_cursor_request_le_one (ops : List Op) :
    ∀ flags : Nat × Nat, flags.1 ≤ 1 ∧ flags.2 ≤ 1 →
      (ops.foldl cursor_request flags).1 ≤ 1 ∧ (ops.foldl cursor_request flags).2 ≤ 1 := by
  induction ops with
  | nil => intro flags h; exact h
  | cons op ops ih =>
    intro flags h
    exact ih _ (cursor_request_le_one flags op h)

/-- The payloads of `display_off` in terms of the tracked flags. -/
theorem display_off_cycles (s : LCDdisplay) (h1 : s.cursor_status.1 ≤ 1)
    (h2 : s.cursor_status.2 ≤ 1) :
    s.display_off.cycles = s.cycles ++
      byte_cycles COMMAND (0x08 ||| (s.cursor_status.1 <<< 1) ||| s.cursor_status.2) := by
  unfold display_off
  simp only [List.set, send_full_byte_cycles]
  generalize s.cursor_status.1 = v at h1
  generalize s.cursor_status.2 = b at h2
  interval_cases v <;> interval_cases b <;> rfl

/-- The payloads of `display_on` in terms of the tracked flags. -/
theorem display_on_cycles (s : LCDdisplay) (h1 : s.cursor_status.1 ≤ 1)
    (h2 : s.cursor_status.2 ≤ 1) :
    s.display_on.cycles = s.cycles ++
      byte_cycles COMMAND (0x0C ||| (s.cursor_status.1 <<< 1) ||| s.cursor_status.2) := by
  unfold display_on
  simp only [List.set, send_full_byte_cycles]
  generalize s.cursor_status.1 = v at h1
  generalize s.cursor_status.2 = b at h2
  interval_cases v <;> interval_cases b <;> rfl

/-- C6: after `init` and any sequence `ops` of public calls, `display_off`
sends the command byte `0x08 | (visible << 1) | blink` and `display_on` sends
`0x0C | (visible << 1) | blink`, where `(visible, blink)` are the flags set by
the most recent cursor call of `ops` (`(0, 0)` if there is none); and in
`display_on(); cursor_on(true); display_off()` the last call sends `0x0B`. -/
theorem C6_display_toggle_resends_cursor_flags (s : LCDdisplay) (ops : List Op) :
    (run ops s.init).display_off.cycles
        = (run ops s.init).cycles ++ byte_cycles COMMAND
            (0x08 ||| ((last_cursor_request ops).1 <<< 1) ||| (last_cursor_request ops).2)
      ∧ (run ops s.init).display_on.cycles
        = (run ops s.init).cycles ++ byte_cycles COMMAND
            (0x0C ||| ((last_cursor_request ops).1 <<< 1) ||| (last_cursor_request ops).2)
      ∧ (run [Op.display_on, Op.cursor_on_blink true] s.init).display_off.cycles
        = (run [Op.display_on, Op.cursor_on_blink true] s.init).cycles
            ++ byte_cycles COMMAND 0x0B := by
  have hst : ∀ l : List Op, (run l s.init).cursor_status = last_cursor_request l := by
    intro l
    rw [run_cursor_status, init_cursor_status]; rfl
  have hle : ∀ l : List Op, (last_cursor_request l).1 ≤ 1 ∧ (last_cursor_request l).2 ≤ 1 :=
    fun l => foldl_cursor_request_le_one l (0, 0) ⟨by decide, by decide⟩
  refine ⟨?_, ?_, ?_⟩
  · have h := display_off_cycles (run ops s.init) (by rw [hst]; exact (hle ops).1)
      (by rw [hst]; exact (hle ops).2)
    rw [hst] at h; exact h
  · have h := display_on_cycles (run ops s.init) (by rw [hst]; exact (hle ops).1)
      (by rw [hst]; exact (hle ops).2)
    rw [hst] at h; exact h
  · have h := display_off_cycles (run [Op.display_on, Op.cursor_on_blink true] s.init)
      (by rw [hst]; decide) (by rw [hst]; decide)
    rw [hst] at h; exact h

/-! ## C7: custom glyphs -/

theorem uint_into_8bits_literal (a b c d e f g k v : Nat) :
    uint_into_8bits [a, b, c, d, e, f, g, k] v
      = [bit v 7, bit v 6, bit v 5, bit v 4, bit v 3, bit v 2, bit v 1, bit v 0] :=
  uint_into_8bits_eq _ v rfl

/-- The payloads of `createCustomChar`, byte by byte. -/
theorem createCustomChar_cycles (s : LCDdisplay) (location : Nat) (charmap : List Nat) :
    (s.createCustomChar location charmap).cycles
      = s.cycles ++ byte_cycles COMMAND (0x40 + location % 256 * 8)
          ++ byte_cycles DATA (charmap.getD 0 0 % 256)
          ++ byte_cycles DATA (charmap.getD 1 0 % 256)
          ++ byte_cycles DATA (charmap.getD 2 0 % 256)
          ++ byte_cycles DATA (charmap.getD 3 0 % 256)
          ++ byte_cycles DATA (charmap.getD 4 0 % 256)
          ++ byte_cycles DATA (charmap.getD 5 0 % 256)
          ++ byte_cycles DATA (charmap.getD 6 0 % 256)
          ++ byte_cycles DATA (charmap.getD 7 0 % 256) := by
  simp only [createCustomChar, List.range, List.range.loop, List.foldl]
  simp only [List.replicate, uint_into_8bits_literal, send_full_byte_cycles, byte_cycles,
    List.append_assoc, List.cons_append, List.nil_append]

/-- C7: for a slot in 0..7 and a bitmap of eight rows (bytes),
`createCustomChar(slot, bitmap)` adds the payloads of exactly nine bytes: one
command byte `0x40 + 8 * slot`, then the eight rows `bitmap[0..7]` as data
bytes in order; for slot 3 the command byte is `0x58`. -/
theorem C7_createCustomChar (s : LCDdisplay) (slot : Nat) (bitmap : List Nat)
    (hslot : slot ≤ 7) (hlen : bitmap.length = 8) (hrows : ∀ b ∈ bitmap, b < 256) :
    (s.createCustomChar slot bitmap).cycles
        = s.cycles ++ byte_cycles COMMAND (0x40 + 8 * slot)
            ++ (bitmap.map (byte_cycles DATA)).flatten
      ∧ (s.createCustomChar 3 bitmap).cycles
        = s.cycles ++ byte_cycles COMMAND 0x58 ++ (bitmap.map (byte_cycles DATA)).flatten := by
  obtain ⟨a, b, c, d, e, f, g, k, rfl⟩ := list_length_eight bitmap hlen
  simp only [List.mem_cons, List.mem_singleton, forall_eq_or_imp, forall_eq, List.not_mem_nil,
    false_imp_iff, implies_true, and_true] at hrows
  obtain ⟨ha, hb, hc, hd, he, hf, hg, hk⟩ := hrows
  have hs : slot % 256 * 8 = 8 * slot := by omega
  constructor
  · rw [createCustomChar_cycles, hs]
    simp [Nat.mod_eq_of_lt, *]
  · rw [createCustomChar_cycles]
    simp [Nat.mod_eq_of_lt, *]


/-- Witness for C7: the glyph of the third example program in slot 3. -/
theorem C7_createCustomChar_witness :
    (lcd_ctrl.createCustomChar 3 customChar).cycles
      = lcd_ctrl.cycles ++ byte_cycles COMMAND 0x58
          ++ (customChar.map (byte_cycles DATA)).flatten :=
  (C7_createCustomChar lcd_ctrl 3 customChar (by decide) (by decide) (by decide)).1

/-! ## C8: wrapped printing on a 16x2 display -/

theorem bit_mod_256 (v k : Nat) (hk : k ≤ 7) : bit (v % 256) k = bit v k := by
  unfold bit
  interval_cases k <;> omega

theorem byte_cycles_mod_256 (rs v : Nat) : byte_cycles rs (v % 256) = byte_cycles rs v := by
  simp [byte_cycles, bit_mod_256]

/-- The low eight bits of a `char` converted to `uint` are its 8-bit code. -/
theorem char_to_uint_mod_256 (c : Int) : (c % 2 ^ 32).toNat % 256 = char_byte c := by
  unfold char_byte
  omega

/-- One character sent as a data byte. -/
theorem send_char_cycles (s : LCDdisplay) (eb : List Nat) (c : Int) (h : eb.length = 8) :
    (s.send_full_byte DATA (uint_into_8bits eb (c % 2 ^ 32).toNat)).cycles
      = s.cycles ++ byte_cycles DATA (char_byte c) := by
  rw [send_byte_cycles _ _ _ _ h, ← byte_cycles_mod_256, char_to_uint_mod_256]

@[simp] theorem goto_pos_no_chars (s : LCDdisplay) (pos_i line : Int) :
    (s.goto_pos pos_i line).no_chars = s.no_chars := rfl

@[simp] theorem goto_pos_no_lines (s : LCDdisplay) (pos_i line : Int) :
    (s.goto_pos pos_i line).no_lines = s.no_lines := rfl

/-- The scratch array of the printing loops does not influence the result. -/
theorem print_wrapped_loop_buffer (str : List Int) :
    ∀ (s : LCDdisplay) (eb : List Nat) (i : Nat), eb.length = 8 →
      s.print_wrapped_loop eb i str = s.print_wrapped_loop (List.replicate 8 0) i str := by
  induction str with
  | nil => intro s eb i _; rfl
  | cons c cs ih =>
    intro s eb i h
    unfold print_wrapped_loop
    split
    · rfl
    · simp only
      rw [uint_into_8bits_eq eb _ h, uint_into_8bits_eq (List.replicate 8 0) _ rfl]

/-- The loop over a text without NUL continues on what follows the text. -/
theorem print_wrapped_loop_append (a b : List Int) :
    ∀ (s : LCDdisplay) (eb : List Nat) (i : Nat), eb.length = 8 → (∀ c ∈ a, c ≠ 0) →
      s.print_wrapped_loop eb i (a ++ b)
        = (s.print_wrapped_loop eb i a).print_wrapped_loop (List.replicate 8 0)
            (i + a.length) b := by
  induction a with
  | nil =>
    intro s eb i h _
    simpa [print_wrapped_loop] using print_wrapped_loop_buffer b s eb i h
  | cons c cs ih =>
    intro s eb i h hnz
    have hc : c ≠ 0 := hnz c (List.mem_cons_self c cs)
    have hcs : ∀ x ∈ cs, x ≠ 0 := fun x hx => hnz x (List.mem_cons_of_mem c hx)
    rw [List.cons_append]
    simp only [print_wrapped_loop, hc, if_false, List.length_cons]
    rw [ih _ _ _ (uint_into_8bits_length eb _ h) hcs]
    congr 1
    omega

/-- A stretch of text that crosses no multiple of the width is sent as data
bytes only. -/
theorem print_wrapped_loop_no_wrap (text : List Int) :
    ∀ (s : LCDdisplay) (eb : List Nat) (i : Nat), eb.length = 8 → (∀ c ∈ text, c ≠ 0) →
      (∀ k, i < k → k ≤ i + text.length → k % s.no_chars ≠ 0) →
      (s.print_wrapped_loop eb i text).cycles = s.cycles ++ data_cycles text
        ∧ (s.print_wrapped_loop eb i text).no_chars = s.no_chars
        ∧ (s.print_wrapped_loop eb i text).no_lines = s.no_lines := by
  induction text with
  | nil =>
    intro s eb i _ _ _
    simp [print_wrapped_loop, data_cycles]
  | cons c cs ih =>
    intro s eb i h hnz hk
    have hc : c ≠ 0 := hnz c (List.mem_cons_self c cs)
    have hcs : ∀ x ∈ cs, x ≠ 0 := fun x hx => hnz x (List.mem_cons_of_mem c hx)
    have h1 : (i + 1) % s.no_chars ≠ 0 := hk (i + 1) (by omega) (by simp)
    simp only [print_wrapped_loop, hc, if_false, send_full_byte_no_chars, h1]
    obtain ⟨e1, e2, e3⟩ := ih (s.send_full_byte DATA (uint_into_8bits eb (c % 2 ^ 32).toNat))
      (uint_into_8bits eb (c % 2 ^ 32).toNat) (i + 1) (uint_into_8bits_length eb _ h) hcs
      (fun k hk1 hk2 => hk k (by omega) (by simp only [List.length_cons]; omega))
    refine ⟨?_, by rw [e2]; rfl, by rw [e3]; rfl⟩
    rw [e1, send_char_cycles _ _ _ h]
    simp [data_cycles]


theorem data_cycles_append (a b : List Int) :
    data_cycles (a ++ b) = data_cycles a ++ data_cycles b := by
  simp [data_cycles]

/-- No payload of a data text is a command payload. -/
theorem data_cycles_filter_command (text : List Int) :
    (data_cycles text).filter (fun p => decide (p.getD 4 0 = COMMAND)) = [] := by
  induction text with
  | nil => rfl
  | cons c cs ih =>
    have e : data_cycles (c :: cs) = byte_cycles DATA (char_byte c) ++ data_cycles cs := by
      simp [data_cycles]
    rw [e, List.filter_append, ih]
    simp [byte_cycles, DATA, COMMAND]

/-- Both payloads of a command byte are command payloads. -/
theorem byte_cycles_filter_command (v : Nat) :
    (byte_cycles COMMAND v).filter (fun p => decide (p.getD 4 0 = COMMAND))
      = byte_cycles COMMAND v := by
  simp [byte_cycles, COMMAND]

/-- Wrapped printing of 15 + 1 + (fewer than 16) characters on a 16x2 display. -/
theorem print_wrapped_16x2 (s : LCDdisplay) (a : List Int) (c : Int) (b : List Int)
    (hc : s.no_chars = 16) (hl : s.no_lines = 2) (ha : a.length = 15) (hb : b.length < 16)
    (hnz : ∀ x ∈ a ++ c :: b, x ≠ 0) :
    (s.print_wrapped (a ++ c :: b)).cycles
      = s.cycles ++ byte_cycles COMMAND 0x80 ++ data_cycles (a ++ [c])
          ++ byte_cycles COMMAND 0xC0 ++ data_cycles b := by
  have hza : ∀ x ∈ a, x ≠ 0 := fun x hx => hnz x (List.mem_append_left _ hx)
  have hzc : c ≠ 0 := hnz c (List.mem_append_right _ (List.mem_cons_self c b))
  have hzb : ∀ x ∈ b, x ≠ 0 := fun x hx =>
    hnz x (List.mem_append_right _ (List.mem_cons_of_mem c hx))
  have h0 : (s.goto_pos 0 0).cycles = s.cycles ++ byte_cycles COMMAND 0x80 := by
    simpa using goto_pos_two_lines s 0 0 hl (by decide)
  -- the first fifteen characters
  obtain ⟨e1, e2, e3⟩ := print_wrapped_loop_no_wrap a (s.goto_pos 0 0) (List.replicate 8 0) 0
    rfl hza (fun k hk1 hk2 => by
      rw [goto_pos_no_chars, hc]; rw [ha] at hk2; omega)
  rw [goto_pos_no_chars, hc] at e2
  rw [goto_pos_no_lines, hl] at e3
  generalize hs1 : (s.goto_pos 0 0).print_wrapped_loop (List.replicate 8 0) 0 a = s1 at *
  -- the sixteenth character and the jump
  have h1 : ((s1.send_full_byte DATA
      (uint_into_8bits (List.replicate 8 0) (c % 2 ^ 32).toNat)).goto_pos 0 1).cycles
      = s1.cycles ++ byte_cycles DATA (char_byte c) ++ byte_cycles COMMAND 0xC0 := by
    have := goto_pos_two_lines (s1.send_full_byte DATA
      (uint_into_8bits (List.replicate 8 0) (c % 2 ^ 32).toNat)) 0 1 (by simpa using e3)
      (by decide)
    rw [send_char_cycles _ (List.replicate 8 0) _ rfl] at this
    simpa using this
  generalize hs3 : (s1.send_full_byte DATA
      (uint_into_8bits (List.replicate 8 0) (c % 2 ^ 32).toNat)).goto_pos 0 1 = s3 at *
  have hs3c : s3.no_chars = 16 := by rw [← hs3]; simpa using e2
  -- the rest
  obtain ⟨f1, _, _⟩ := print_wrapped_loop_no_wrap b s3
    (uint_into_8bits (List.replicate 8 0) (c % 2 ^ 32).toNat) 16
    (uint_into_8bits_length _ _ rfl) hzb (fun k hk1 hk2 => by rw [hs3c]; omega)
  unfold print_wrapped
  rw [print_wrapped_loop_append a (c :: b) _ (List.replicate 8 0) 0 rfl hza, hs1, ha]
  simp only [print_wrapped_loop, hzc, if_false, send_full_byte_no_chars, e2]
  simp only [Nat.zero_add, Nat.reduceAdd, Nat.reduceMod, Nat.reduceDiv, if_true, Nat.cast_one]
  rw [hs3, f1, h1, e1, h0, data_cycles_append]
  simp [data_cycles]


/-- C8: on a display with 16 columns and 2 lines, for every text without NUL
of length `n` with `16 < n < 32`, `print_wrapped(text)` adds to the history
the position command for (0, 0) (byte `0x80`), the first 16 characters as data
bytes, the position command for row 1 column 0 (byte `0xC0`), and the
remaining `n - 16` characters as data bytes; the command payloads of the call
are those of `0x80` and `0xC0` and no others, so the jump to row 1 happens
exactly once, right after the 16th character. -/
theorem C8_print_wrapped_16x2 (s : LCDdisplay) (text : List Int)
    (hc : s.no_chars = 16) (hl : s.no_lines = 2)
    (hlo : 16 < text.length) (hhi : text.length < 32) (hnz : ∀ x ∈ text, x ≠ 0) :
    (s.print_wrapped text).cycles
        = s.cycles ++ byte_cycles COMMAND 0x80 ++ data_cycles (text.take 16)
            ++ byte_cycles COMMAND 0xC0 ++ data_cycles (text.drop 16)
      ∧ ((s.print_wrapped text).cycles.drop s.cycles.length).filter
            (fun p => decide (p.getD 4 0 = COMMAND))
        = byte_cycles COMMAND 0x80 ++ byte_cycles COMMAND 0xC0 := by
  have hsplit : text = text.take 16 ++ text.drop 16 := (List.take_append_drop 16 text).symm
  have htl : (text.take 16).length = 16 := by rw [List.length_take]; omega
  have hdl : (text.drop 16).length < 16 := by rw [List.length_drop]; omega
  rcases List.eq_nil_or_concat (text.take 16) with hnil | ⟨a, c, hac⟩
  · rw [hnil] at htl; simp at htl
  · rw [List.concat_eq_append] at hac
    have ha : a.length = 15 := by
      rw [hac] at htl; simpa using htl
    have htext : text = a ++ c :: text.drop 16 := by
      conv_lhs => rw [hsplit, hac]
      simp
    have hmain := print_wrapped_16x2 s a c (text.drop 16) hc hl ha hdl
      (by rw [← htext]; exact hnz)
    rw [← htext, ← hac] at hmain
    refine ⟨hmain, ?_⟩
    rw [hmain]
    simp only [List.append_assoc, List.drop_left, List.filter_append,
      data_cycles_filter_command, byte_cycles_filter_command, List.append_nil, List.nil_append]

/-- Witness for C8: the text of the specification's scenario. -/
theorem C8_print_wrapped_16x2_witness :
    (lcd_ctrl.print_wrapped (chars "0123456789ABCDEF>")).cycles
      = lcd_ctrl.cycles ++ byte_cycles COMMAND 0x80
          ++ data_cycles ((chars "0123456789ABCDEF>").take 16)
          ++ byte_cycles COMMAND 0xC0 ++ data_cycles ((chars "0123456789ABCDEF>").drop 16) :=
  (C8_print_wrapped_16x2 lcd_ctrl (chars "0123456789ABCDEF>") (by decide) (by decide)
    (by decide) (by decide) (by decide)).1

/-! ## C9, C10: the power-on handshake -/

@[simp] theorem init_pins_cycles (s : LCDdisplay) : s.init_pins.cycles = s.cycles := rfl
@[simp] theorem init_pins_no_lines (s : LCDdisplay) : s.init_pins.no_lines = s.no_lines := rfl
@[simp] theorem init_pins_bl_pwm_pin (s : LCDdisplay) :
    s.init_pins.bl_pwm_pin = s.bl_pwm_pin := rfl
@[simp] theorem init_pins_LCDpins (s : LCDdisplay) : s.init_pins.LCDpins = s.LCDpins := rfl
@[simp] theorem init_pins_events (s : LCDdisplay) :
    s.init_pins.events = s.events ++
      [Event.gpio_init_mask (s.pin_values_to_mask [1, 1, 1, 1, 1, 1] 6),
       Event.gpio_set_dir_out_masked (s.pin_values_to_mask [1, 1, 1, 1, 1, 1] 6),
       Event.gpio_clr_mask (s.pin_values_to_mask [1, 1, 1, 1, 1, 1] 6)] := by
  simp [init_pins, emit, pin_values_to_mask, pinArray]

@[simp] theorem send_raw_LCDmask (s : LCDdisplay) (raw : List Nat) :
    (s.send_raw_data_one_cycle raw).LCDmask = s.LCDmask := rfl
@[simp] theorem send_raw_LCDpins (s : LCDdisplay) (raw : List Nat) :
    (s.send_raw_data_one_cycle raw).LCDpins = s.LCDpins := rfl

theorem strobe_congr (s t : LCDdisplay) (raw : List Nat) (hm : t.LCDmask = s.LCDmask)
    (hp : t.LCDpins = s.LCDpins) : strobe t raw = strobe s raw := by
  simp [strobe, pin_values_to_mask, pinArray, hm, hp]

theorem send_raw_events (s : LCDdisplay) (raw : List Nat) :
    (s.send_raw_data_one_cycle raw).events = s.events ++ strobe s raw := rfl

theorem send_full_byte_events (s : LCDdisplay) (rs b0 b1 b2 b3 b4 b5 b6 b7 : Nat) :
    (s.send_full_byte rs [b0, b1, b2, b3, b4, b5, b6, b7]).events
      = s.events ++ strobe s [b0, b1, b2, b3, rs] ++ strobe s [b4, b5, b6, b7, rs] := by
  simp [send_full_byte, send_raw_data_one_cycle, strobe, pin_values_to_mask, pinArray,
    List.range, List.range.loop]

@[simp] theorem clear_cycles (s : LCDdisplay) :
    s.clear.cycles = s.cycles ++ [[0, 0, 0, 0, 0], [0, 0, 0, 1, 0]] := by
  unfold clear
  exact send_full_byte_cycles s COMMAND 0 0 0 0 0 0 0 1

@[simp] theorem init_pwm_pin_cycles (s : LCDdisplay) (pin : Nat) :
    (s.init_pwm_pin pin).cycles = s.cycles := rfl

/-- The part of `init` between the pin set-up and the backlight set-up. -/
theorem init_cycles_core (s : LCDdisplay) (d : List Nat) (b0 b1 b2 b3 b4 b5 b6 b7 : Nat)
    (hd : d = [b0, b1, b2, b3, b4, b5, b6, b7]) :
    ((((((((s.send_raw_data_one_cycle [0, 0, 1, 1, 0]).send_raw_data_one_cycle
      [0, 0, 1, 1, 0]).send_raw_data_one_cycle [0, 0, 1, 1, 0]).send_raw_data_one_cycle
      [0, 0, 1, 0, 0]).send_full_byte COMMAND d).send_full_byte COMMAND
      [0, 0, 0, 0, 0, 1, 1, 0]).send_full_byte COMMAND [0, 0, 0, 0, 1, 1, 0, 0]).clear).cycles
      = s.cycles ++ ([[0, 0, 1, 1, 0], [0, 0, 1, 1, 0], [0, 0, 1, 1, 0], [0, 0, 1, 0, 0]]
          ++ [[b0, b1, b2, b3, 0], [b4, b5, b6, b7, 0]]
          ++ [[0, 0, 0, 0, 0], [0, 1, 1, 0, 0]] ++ [[0, 0, 0, 0, 0], [1, 1, 0, 0, 0]]
          ++ [[0, 0, 0, 0, 0], [0, 0, 0, 1, 0]]) := by
  subst hd
  simp only [clear_cycles, send_full_byte_cycles, send_raw_cycles, COMMAND, List.append_assoc,
    List.cons_append, List.nil_append]

/-- The payloads of `init`. -/
theorem init_cycles (s : LCDdisplay) :
    s.init.cycles = s.cycles ++ handshake (if s.no_lines = 2 then 0x28 else 0x20) := by
  unfold init
  simp only [init_pins_no_lines]
  by_cases h2 : s.no_lines = 2
  · simp only [h2, if_true, List.set]
    split
    · simp only [init_pwm_pin_cycles]
      rw [init_cycles_core _ _ _ _ _ _ _ _ _ _ rfl, init_pins_cycles]
      rfl
    · rw [init_cycles_core _ _ _ _ _ _ _ _ _ _ rfl, init_pins_cycles]
      rfl
  · simp only [h2, if_false]
    split
    · simp only [init_pwm_pin_cycles]
      rw [init_cycles_core _ _ _ _ _ _ _ _ _ _ rfl, init_pins_cycles]
      rfl
    · rw [init_cycles_core _ _ _ _ _ _ _ _ _ _ rfl, init_pins_cycles]
      rfl


@[simp] theorem strobe_send_raw (s : LCDdisplay) (r raw : List Nat) :
    strobe (s.send_raw_data_one_cycle r) raw = strobe s raw :=
  strobe_congr s _ raw rfl rfl

@[simp] theorem strobe_send_full_byte (s : LCDdisplay) (rs : Nat) (d raw : List Nat) :
    strobe (s.send_full_byte rs d) raw = strobe s raw :=
  strobe_congr s _ raw rfl rfl

theorem clear_events (s : LCDdisplay) :
    s.clear.events = s.events ++ strobe s [0, 0, 0, 0, 0] ++ strobe s [0, 0, 0, 1, 0]
      ++ [Event.sleep_ms 10] := by
  unfold clear
  simp only [send_full_byte_events, COMMAND]

theorem init_LCDmask (s : LCDdisplay) : s.init.LCDmask = s.init_pins.LCDmask := by
  unfold init
  simp only []
  split <;> split <;> rfl

theorem init_LCDpins (s : LCDdisplay) : s.init.LCDpins = s.LCDpins := by
  unfold init
  simp only []
  split <;> split <;> rfl

theorem init_LCDmask_c (s : LCDdisplay) :
    s.init.LCDmask_c = s.pin_values_to_mask [1, 1, 1, 1, 1, 1] 6 := by
  unfold init
  simp only []
  split <;> split <;> rfl

/-- The hardware calls of the part of `init` after the pin set-up and before
the backlight set-up. -/
theorem init_events_core (s : LCDdisplay) (d : List Nat) (b0 b1 b2 b3 b4 b5 b6 b7 : Nat)
    (hd : d = [b0, b1, b2, b3, b4, b5, b6, b7]) :
    ((((((((s.send_raw_data_one_cycle [0, 0, 1, 1, 0]).send_raw_data_one_cycle
      [0, 0, 1, 1, 0]).send_raw_data_one_cycle [0, 0, 1, 1, 0]).send_raw_data_one_cycle
      [0, 0, 1, 0, 0]).send_full_byte COMMAND d).send_full_byte COMMAND
      [0, 0, 0, 0, 0, 1, 1, 0]).send_full_byte COMMAND [0, 0, 0, 0, 1, 1, 0, 0]).clear).events
      = s.events ++ (([[0, 0, 1, 1, 0], [0, 0, 1, 1, 0], [0, 0, 1, 1, 0], [0, 0, 1, 0, 0]]
          ++ [[b0, b1, b2, b3, 0], [b4, b5, b6, b7, 0]]
          ++ [[0, 0, 0, 0, 0], [0, 1, 1, 0, 0]] ++ [[0, 0, 0, 0, 0], [1, 1, 0, 0, 0]]
          ++ [[0, 0, 0, 0, 0], [0, 0, 0, 1, 0]]).map (strobe s)).flatten
          ++ [Event.sleep_ms 10] := by
  subst hd
  simp only [clear_events, send_full_byte_events, send_raw_events, COMMAND,
    strobe_send_raw, strobe_send_full_byte, List.append_assoc,
    List.cons_append, List.nil_append, List.map_cons, List.map_nil, List.flatten_cons,
    List.flatten_nil, List.append_nil]

/-- The hardware calls of `init`. -/
theorem init_events (s : LCDdisplay) :
    s.init.events = s.events ++
      [Event.gpio_init_mask (s.pin_values_to_mask [1, 1, 1, 1, 1, 1] 6),
       Event.gpio_set_dir_out_masked (s.pin_values_to_mask [1, 1, 1, 1, 1, 1] 6),
       Event.gpio_clr_mask (s.pin_values_to_mask [1, 1, 1, 1, 1, 1] 6)]
      ++ ((handshake (if s.no_lines = 2 then 0x28 else 0x20)).map (strobe s.init)).flatten
      ++ [Event.sleep_ms 10]
      ++ (if s.bl_pwm_pin < 30 then
            [Event.gpio_set_function_pwm s.bl_pwm_pin, Event.pwm_init s.bl_pwm_pin 500 100]
          else []) := by
  have hst : ∀ raw, strobe s.init raw = strobe s.init_pins raw := fun raw =>
    strobe_congr _ _ raw (init_LCDmask s) (init_LCDpins s)
  have hmap : ∀ l : List (List Nat), l.map (strobe s.init) = l.map (strobe s.init_pins) :=
    fun l => List.map_congr_left (fun raw _ => hst raw)
  rw [hmap]
  unfold init
  simp only [init_pins_no_lines]
  by_cases h2 : s.no_lines = 2
  · simp only [h2, if_true, List.set]
    split
    · rename_i hb
      have hb2 : s.bl_pwm_pin < 30 := hb
      simp only [init_pwm_pin, hb2, if_true]
      rw [init_events_core _ _ _ _ _ _ _ _ _ _ rfl, init_pins_events]
      rfl
    · rename_i hb
      have hb2 : ¬ s.bl_pwm_pin < 30 := hb
      simp only [hb2, if_false, List.append_nil]
      rw [init_events_core _ _ _ _ _ _ _ _ _ _ rfl, init_pins_events]
      rfl
  · simp only [h2, if_false]
    split
    · rename_i hb
      have hb2 : s.bl_pwm_pin < 30 := hb
      simp only [init_pwm_pin, hb2, if_true]
      rw [init_events_core _ _ _ _ _ _ _ _ _ _ rfl, init_pins_events]
      rfl
    · rename_i hb
      have hb2 : ¬ s.bl_pwm_pin < 30 := hb
      simp only [hb2, if_false, List.append_nil]
      rw [init_events_core _ _ _ _ _ _ _ _ _ _ rfl, init_pins_events]
      rfl


/-- Contents of `pinArray` after `n` assignments of the value 1 to pins below
32, distinct or not. -/
theorem pinArray_ones (s : LCDdisplay) (raw : List Nat) (n : Nat)
    (hones : ∀ i, i < n → raw.getD i 0 = 1)
    (hlt : ∀ i, i < n → s.LCDpins.getD i 0 < 32) :
    ∀ p, (s.pinArray raw n).getD p 0
      = if ∃ i, i < n ∧ s.LCDpins.getD i 0 = p then 1 else 0 := by
  induction n with
  | zero =>
    intro p
    have hno : ¬ ∃ i, i < 0 ∧ s.LCDpins.getD i 0 = p := fun ⟨i, hi, _⟩ => Nat.not_lt_zero i hi
    rw [if_neg hno]
    simp only [pinArray, List.range_zero, List.foldl_nil, List.getD_eq_getElem?_getD,
      List.getElem?_replicate]
    split <;> rfl
  | succ n ih =>
    intro p
    have ih' := ih (fun i hi => hones i (by omega)) (fun i hi => hlt i (by omega)) p
    rw [pinArray_succ, getD_set_eq, pinArray_length, ih', hones n (by omega)]
    by_cases hp : s.LCDpins.getD n 0 = p
    · have hex : ∃ i, i < n + 1 ∧ s.LCDpins.getD i 0 = p := ⟨n, by omega, hp⟩
      have h32 : s.LCDpins.getD n 0 < 32 := hlt n (by omega)
      rw [if_pos ⟨hp, h32⟩, if_pos hex]
    · have hiff : (∃ i, i < n + 1 ∧ s.LCDpins.getD i 0 = p)
          ↔ ∃ i, i < n ∧ s.LCDpins.getD i 0 = p := by
        constructor
        · rintro ⟨i, hi, he⟩
          have hin : i ≠ n := fun h => hp (h ▸ he)
          exact ⟨i, by omega, he⟩
        · rintro ⟨i, hi, he⟩
          exact ⟨i, by omega, he⟩
      have hno : ¬ (s.LCDpins.getD n 0 = p ∧ s.LCDpins.getD n 0 < 32) := fun h => hp h.1
      rw [if_neg hno]
      by_cases hex : ∃ i, i < n ∧ s.LCDpins.getD i 0 = p
      · rw [if_pos hex, if_pos (hiff.2 hex)]
      · rw [if_neg hex, if_neg (fun h => hex (hiff.1 h))]

/-- The bits of the configuration mask are the assigned pins. -/
theorem mask_c_bits (s : LCDdisplay) (hlen : s.LCDpins.length = 6)
    (hlt : ∀ p ∈ s.LCDpins, p < 32) (p : Nat) :
    bit (s.pin_values_to_mask [1, 1, 1, 1, 1, 1] 6) p = if p ∈ s.LCDpins then 1 else 0 := by
  have hpl := pins_getD_lt s.LCDpins hlt 6 (by omega)
  have hones : ∀ i, i < 6 → ([1, 1, 1, 1, 1, 1] : List Nat).getD i 0 = 1 := by decide
  have hpa := pinArray_ones s [1, 1, 1, 1, 1, 1] 6 hones hpl
  have hle : ∀ q, (s.pinArray [1, 1, 1, 1, 1, 1] 6).getD q 0 ≤ 1 := by
    intro q; rw [hpa q]; split <;> omega
  have hbit := (pack_rounds_spec _ hle 32 (le_refl _)).2 p
  have hmem : (∃ i, i < 6 ∧ s.LCDpins.getD i 0 = p) ↔ p ∈ s.LCDpins := by
    constructor
    · rintro ⟨i, hi, he⟩
      have hi2 : i < s.LCDpins.length := by omega
      rw [List.getD_eq_getElem _ _ hi2] at he
      exact he ▸ List.getElem_mem hi2
    · intro hp
      obtain ⟨i, hi, he⟩ := List.mem_iff_getElem.1 hp
      exact ⟨i, by omega, by rw [List.getD_eq_getElem _ _ hi]; exact he⟩
  unfold pin_values_to_mask
  rw [hbit]
  by_cases hp : p ∈ s.LCDpins
  · have h32 : p < 32 := hlt p hp
    rw [if_pos h32, if_pos hp]
    have := hpa p
    rw [if_pos (hmem.2 hp)] at this
    simpa using this
  · rw [if_neg hp]
    split
    · have := hpa p
      rw [if_neg (fun h => hp (hmem.1 h))] at this
      simpa using this
    · rfl

/-- C9 (evaluation of the code where the claim fails): with four lines
configured, the first full command byte that `init` sends after the four
set-up nibbles is `0x20`, with the multi-line flag clear, not `0x28`. -/
theorem C9_function_set_four_lines (s : LCDdisplay) (h4 : s.no_lines = 4) :
    ((s.init.cycles.drop (s.cycles.length + 4)).take 2) = byte_cycles COMMAND 0x20
      ∧ byte_cycles COMMAND 0x20 ≠ byte_cycles COMMAND 0x28 := by
  have h42 : ¬ (4 = 2) := by decide
  refine ⟨?_, by decide⟩
  rw [init_cycles, h4, if_neg h42, handshake, List.append_assoc, List.append_assoc,
    List.append_assoc, ← List.drop_drop, List.drop_left]
  rfl

/-- Witness for C9: the 20x4 example display. -/
theorem C9_function_set_four_lines_witness :
    ((lcd_20x4.init.cycles.drop (lcd_20x4.cycles.length + 4)).take 2)
      = byte_cycles COMMAND 0x20 :=
  (C9_function_set_four_lines lcd_20x4 (by decide)).1

/-- C10: for six assigned pins below 32 and any geometry, `init` first calls
`gpio_init_mask`, `gpio_set_dir_out_masked` and `gpio_clr_mask` with the mask
whose set bits are exactly the assigned pins, and then runs the nibble cycles
of the handshake in order: `0b0011` three times, `0b0010` once, the
function-set byte, `0x06`, `0x0C`, `0x01`, all with register-select 0 (then the
extra delay of `clear` and the backlight set-up, if any); on return the
tracked cursor flags are (0, 0). -/
theorem C10_init_sequence (s : LCDdisplay) (hlen : s.LCDpins.length = 6)
    (hlt : ∀ p ∈ s.LCDpins, p < 32) :
    s.init.events = s.events ++
        [Event.gpio_init_mask s.init.LCDmask_c,
         Event.gpio_set_dir_out_masked s.init.LCDmask_c,
         Event.gpio_clr_mask s.init.LCDmask_c]
        ++ ((handshake (if s.no_lines = 2 then 0x28 else 0x20)).map (strobe s.init)).flatten
        ++ [Event.sleep_ms 10]
        ++ (if s.bl_pwm_pin < 30 then
              [Event.gpio_set_function_pwm s.bl_pwm_pin, Event.pwm_init s.bl_pwm_pin 500 100]
            else [])
      ∧ (∀ p, bit s.init.LCDmask_c p = if p ∈ s.LCDpins then 1 else 0)
      ∧ s.init.cycles = s.cycles ++ handshake (if s.no_lines = 2 then 0x28 else 0x20)
      ∧ s.init.cursor_status = (0, 0) := by
  refine ⟨?_, ?_, init_cycles s, init_cursor_status s⟩
  · rw [init_LCDmask_c]; exact init_events s
  · intro p
    rw [init_LCDmask_c]; exact mask_c_bits s hlen hlt p

/-- Witness for C10: the payloads of `init` on the example display. -/
theorem C10_init_sequence_witness :
    lcd_ctrl.init.cycles = lcd_ctrl.cycles ++ handshake 0x28
      ∧ lcd_ctrl.init.cursor_status = (0, 0) :=
  have h := C10_init_sequence lcd_ctrl (by decide) (by decide)
  ⟨h.2.2.1, h.2.2.2⟩

/-! ## C11: plain printing -/

/-- The loop of `print` on a text without NUL, followed by a NUL and anything
else, sends the text as data bytes and stops at the NUL. -/
theorem print_loop_cycles (text rest : List Int) :
    ∀ (s : LCDdisplay) (eb : List Nat), eb.length = 8 → (∀ c ∈ text, c ≠ 0) →
      (s.print_loop eb (text ++ 0 :: rest)).cycles = s.cycles ++ data_cycles text := by
  induction text with
  | nil =>
    intro s eb _ _
    simp [print_loop, data_cycles]
  | cons c cs ih =>
    intro s eb h hnz
    have hc : c ≠ 0 := hnz c (List.mem_cons_self c cs)
    have hcs : ∀ x ∈ cs, x ≠ 0 := fun x hx => hnz x (List.mem_cons_of_mem c hx)
    rw [List.cons_append]
    simp only [print_loop, hc, if_false]
    rw [ih _ _ (uint_into_8bits_length eb _ h) hcs, send_char_cycles _ _ _ h]
    simp [data_cycles]

theorem char_byte_unsigned (k : Nat) (hk : k < 256) : char_byte (unsigned_char k) = k := by
  unfold char_byte unsigned_char; omega

theorem char_byte_signed (k : Nat) (hk : k < 256) : char_byte (signed_char k) = k := by
  unfold char_byte signed_char; split <;> omega

theorem unsigned_char_ne_zero (k : Nat) (hk : k ≠ 0) : unsigned_char k ≠ 0 := by
  unfold unsigned_char; omega

theorem signed_char_ne_zero (k : Nat) (hk : k ≠ 0) (hb : k < 256) : signed_char k ≠ 0 := by
  unfold signed_char; split <;> omega

theorem data_cycles_map (f : Nat → Int) (codes : List Nat)
    (hf : ∀ k ∈ codes, char_byte (f k) = k) :
    data_cycles (codes.map f) = (codes.map (byte_cycles DATA)).flatten := by
  induction codes with
  | nil => rfl
  | cons k ks ih =>
    have h1 : char_byte (f k) = k := hf k (List.mem_cons_self k ks)
    have h2 := ih (fun x hx => hf x (List.mem_cons_of_mem k hx))
    simp only [data_cycles, List.map_cons, List.flatten_cons, h1] at h2 ⊢
    rw [h2]

theorem byte_cycles_flatten_length (rs : Nat) (codes : List Nat) :
    ((codes.map (byte_cycles rs)).flatten).length = 2 * codes.length := by
  induction codes with
  | nil => rfl
  | cons k ks ih =>
    simp only [List.map_cons, List.flatten_cons, List.length_append, ih, List.length_cons]
    simp [byte_cycles]; omega

theorem data_bytes_filter_command (codes : List Nat) :
    ((codes.map (byte_cycles DATA)).flatten).filter (fun p => decide (p.getD 4 0 = COMMAND))
      = [] := by
  induction codes with
  | nil => rfl
  | cons k ks ih =>
    simp only [List.map_cons, List.flatten_cons, List.filter_append, ih]
    simp [byte_cycles, DATA, COMMAND]

/-- C11: for a text of `n` characters with 8-bit codes `codes` (none zero),
stored as unsigned or as signed `char` values and followed by a NUL,
`print(text)` adds to the history exactly the payloads of the `n` data bytes
`codes[0], ..., codes[n-1]` in order (two payloads per byte, all with
register-select 1), and no command payload. -/
theorem C11_print_sends_text (s : LCDdisplay) (codes : List Nat) (rest : List Int)
    (hnz : ∀ k ∈ codes, k ≠ 0) (hb : ∀ k ∈ codes, k < 256) :
    (s.print (codes.map unsigned_char ++ 0 :: rest)).cycles
        = s.cycles ++ (codes.map (byte_cycles DATA)).flatten
      ∧ (s.print (codes.map signed_char ++ 0 :: rest)).cycles
        = s.cycles ++ (codes.map (byte_cycles DATA)).flatten
      ∧ ((codes.map (byte_cycles DATA)).flatten).length = 2 * codes.length
      ∧ ((codes.map (byte_cycles DATA)).flatten).filter
          (fun p => decide (p.getD 4 0 = COMMAND)) = []
      ∧ DATA = 1 := by
  refine ⟨?_, ?_, byte_cycles_flatten_length DATA codes, data_bytes_filter_command codes, rfl⟩
  · unfold print
    rw [print_loop_cycles _ _ _ (List.replicate 8 0) rfl (by
      intro c hc
      obtain ⟨k, hk, rfl⟩ := List.mem_map.1 hc
      exact unsigned_char_ne_zero k (hnz k hk))]
    rw [data_cycles_map _ _ (fun k hk => char_byte_unsigned k (hb k hk))]
  · unfold print
    rw [print_loop_cycles _ _ _ (List.replicate 8 0) rfl (by
      intro c hc
      obtain ⟨k, hk, rfl⟩ := List.mem_map.1 hc
      exact signed_char_ne_zero k (hnz k hk) (hb k hk))]
    rw [data_cycles_map _ _ (fun k hk => char_byte_signed k (hb k hk))]

/-- Witness for C11: a text with a code above `0x7F`, stored as signed chars. -/
theorem C11_print_sends_text_witness :
    (lcd_ctrl.print ([0x41, 0xE4, 0x42].map signed_char ++ 0 :: [0x43])).cycles
      = lcd_ctrl.cycles ++ ([0x41, 0xE4, 0x42].map (byte_cycles DATA)).flatten :=
  (C11_print_sends_text lcd_ctrl [0x41, 0xE4, 0x42] [0x43] (by decide) (by decide)).2.1

/-! ## C12: the cursor calls -/

/-- C12: `cursor_on(blink)` sends exactly the command byte `0x0E | blink` and
leaves the flags (1, blink); `cursor_off()` sends exactly the command byte
`0x0C` and leaves (0, 0); `cursor_on()` does what `cursor_on(true)` does. -/
theorem C12_cursor_calls (s : LCDdisplay) :
    (s.cursor_on_blink false).cycles = s.cycles ++ byte_cycles COMMAND (0x0E ||| 0)
      ∧ (s.cursor_on_blink false).cursor_status = (1, 0)
      ∧ (s.cursor_on_blink true).cycles = s.cycles ++ byte_cycles COMMAND (0x0E ||| 1)
      ∧ (s.cursor_on_blink true).cursor_status = (1, 1)
      ∧ s.cursor_off.cycles = s.cycles ++ byte_cycles COMMAND 0x0C
      ∧ s.cursor_off.cursor_status = (0, 0)
      ∧ s.cursor_on = s.cursor_on_blink true
      ∧ COMMAND = 0 := by
  refine ⟨?_, rfl, ?_, rfl, ?_, rfl, rfl, rfl⟩
  · exact send_full_byte_cycles s COMMAND 0 0 0 0 1 1 1 0
  · exact send_full_byte_cycles s COMMAND 0 0 0 0 1 1 1 1
  · exact send_full_byte_cycles s COMMAND 0 0 0 0 1 1 0 0

/-! ## C13: the line argument of `print(text, line)` -/

/-- C13: for every text and every value of `line`, `print(text, line)` is
`goto_pos(0, 1)` followed by `print(text)`: the whole driver record, histories
included, is the same, so `line` has no effect. -/
theorem C13_print_line_ignores_line (s : LCDdisplay) (text : List Int) (line : Int) :
    s.print_line text line = print_at_row_one s text
      ∧ s.print_line text line = s.print_line text 1 :=
  ⟨rfl, rfl⟩

/-! ## C14: positions on a one-line display -/

/-- C14: on a one-line display, for every column below 256 and every row,
`goto_pos(column, row)` adds exactly the two payloads of one command byte,
and that byte is `column`: no offset, no dependence on the row. -/
theorem C14_goto_pos_one_line (s : LCDdisplay) (column : Nat) (row : Int)
    (h1 : s.no_lines = 1) (hcol : column < 256) :
    (s.goto_pos column row).cycles = s.cycles ++ byte_cycles COMMAND column
      ∧ (s.goto_pos column row).cycles = (s.goto_pos column 0).cycles
      ∧ COMMAND = 0 := by
  have h := fun r => goto_pos_default s column r (by omega) (by omega) (by omega)
  exact ⟨h row, by rw [h row, h 0], rfl⟩

/-- Witness for C14: column 5 of "row 3" on the one-line example display. -/
theorem C14_goto_pos_one_line_witness :
    (lcd_16x1.goto_pos 5 3).cycles = lcd_16x1.cycles ++ byte_cycles COMMAND 5 :=
  (C14_goto_pos_one_line lcd_16x1 5 3 (by decide) (by decide)).1

/-! ## Frame facts and the strobe discipline -/

theorem frame_refl (s : LCDdisplay) : frame s s := ⟨rfl, rfl, rfl, rfl, rfl, rfl⟩

theorem frame_trans {s t u : LCDdisplay} (h1 : frame s t) (h2 : frame t u) : frame s u :=
  ⟨h2.1.trans h1.1, h2.2.1.trans h1.2.1, h2.2.2.1.trans h1.2.2.1,
    h2.2.2.2.1.trans h1.2.2.2.1, h2.2.2.2.2.1.trans h1.2.2.2.2.1,
    h2.2.2.2.2.2.trans h1.2.2.2.2.2⟩

theorem pin_values_to_mask_congr (s t : LCDdisplay) (raw : List Nat) (n : Nat)
    (h : t.LCDpins = s.LCDpins) : t.pin_values_to_mask raw n = s.pin_values_to_mask raw n := by
  simp [pin_values_to_mask, pinArray, h]

theorem ready_of_frame {e : Nat} {s t : LCDdisplay} (hr : ready e s) (hf : frame s t) :
    ready e t := by
  obtain ⟨r1, r2, r3, r4⟩ := hr
  obtain ⟨a1, _, _, _, a5, a6⟩ := hf
  refine ⟨by rw [a1]; exact r1, by rw [a5]; exact r2, ?_, ?_⟩
  · rw [a5, r3, pin_values_to_mask_congr s t _ _ a1]
  · rw [a6, r4, pin_values_to_mask_congr s t _ _ a1]

theorem discipline_append (e : Nat) (l1 l2 : List Event) :
    ∀ (high mid : Bool), discipline e high l1 = some mid →
      discipline e high (l1 ++ l2) = discipline e mid l2 := by
  induction l1 with
  | nil =>
    intro high mid h
    simp only [discipline, Option.some.injEq] at h
    rw [List.nil_append, h]
  | cons ev rest ih =>
    intro high mid h
    rw [List.cons_append]
    cases ev with
    | sleep_ms ms =>
      simp only [discipline] at h ⊢
      exact ih _ _ h
    | gpio_put pin value =>
      by_cases hp : pin = e
      · simp only [discipline, hp, if_true] at h ⊢
        exact ih _ _ h
      · cases high
        · simp only [discipline, hp, if_false, Bool.false_eq_true] at h ⊢
          exact ih _ _ h
        · simp [discipline, hp] at h
    | gpio_put_masked mask value =>
      cases high
      · by_cases hm : bit mask e = 1
        · simp [discipline, hm] at h
        · simp only [discipline, hm, Bool.false_eq_true, or_self, if_false] at h ⊢
          exact ih _ _ h
      · simp [discipline] at h
    | gpio_init_mask m =>
      cases high
      · simp only [discipline, Bool.false_eq_true, if_false] at h ⊢
        exact ih _ _ h
      · simp [discipline] at h
    | gpio_set_dir_out_masked m =>
      cases high
      · simp only [discipline, Bool.false_eq_true, if_false] at h ⊢
        exact ih _ _ h
      · simp [discipline] at h
    | gpio_clr_mask m =>
      cases high
      · simp only [discipline, Bool.false_eq_true, if_false] at h ⊢
        exact ih _ _ h
      · simp [discipline] at h
    | gpio_set_function_pwm m =>
      cases high
      · simp only [discipline, Bool.false_eq_true, if_false] at h ⊢
        exact ih _ _ h
      · simp [discipline] at h
    | pwm_init a b c =>
      cases high
      · simp only [discipline, Bool.false_eq_true, if_false] at h ⊢
        exact ih _ _ h
      · simp [discipline] at h
    | pwm_set_gpio_level a b =>
      cases high
      · simp only [discipline, Bool.false_eq_true, if_false] at h ⊢
        exact ih _ _ h
      · simp [discipline] at h

theorem quiet_step_refl (e : Nat) (s : LCDdisplay) : quiet_step e s s :=
  ⟨frame_refl s, [], by simp, rfl⟩

theorem quiet_step_trans {e : Nat} {s t u : LCDdisplay} (h1 : quiet_step e s t)
    (h2 : quiet_step e t u) : quiet_step e s u := by
  obtain ⟨f1, n1, e1, d1⟩ := h1
  obtain ⟨f2, n2, e2, d2⟩ := h2
  refine ⟨frame_trans f1 f2, n1 ++ n2, by rw [e2, e1, List.append_assoc], ?_⟩
  rw [discipline_append e n1 n2 false false d1, d2]

/-- Chaining: a quiet step from a ready driver, then a quiet step from the
(again ready) result. -/
theorem quiet_step_then {e : Nat} {s t u : LCDdisplay} (hr : ready e s)
    (h1 : quiet_step e s t) (h2 : ready e t → quiet_step e t u) : quiet_step e s u :=
  quiet_step_trans h1 (h2 (ready_of_frame hr h1.1))

/-- One nibble cycle of a ready driver follows the discipline. -/
theorem strobe_discipline (e : Nat) (s : LCDdisplay) (raw : List Nat) (hr : ready e s) :
    discipline e false (strobe s raw) = some false := by
  obtain ⟨r1, r2, _, _⟩ := hr
  have h10 : bit s.LCDmask e ≠ 1 := by omega
  simp [strobe, discipline, r1, h10, HIGH, LOW]

theorem quiet_send_raw {e : Nat} {s : LCDdisplay} (raw : List Nat) (hr : ready e s) :
    quiet_step e s (s.send_raw_data_one_cycle raw) :=
  ⟨⟨rfl, rfl, rfl, rfl, rfl, rfl⟩, strobe s raw, rfl, strobe_discipline e s raw hr⟩

theorem quiet_send_full_byte {e : Nat} {s : LCDdisplay} (rs : Nat) (d : List Nat)
    (hr : ready e s) : quiet_step e s (s.send_full_byte rs d) := by
  unfold send_full_byte
  exact quiet_step_then hr (quiet_send_raw _ hr) (fun g => quiet_send_raw _ g)

/-- Appending a call that is neither a pin write nor a strobe keeps the step
quiet. -/
theorem quiet_emit_sleep {e : Nat} {s : LCDdisplay} (ms : Nat) :
    quiet_step e s { s with events := s.events ++ [Event.sleep_ms ms] } :=
  ⟨⟨rfl, rfl, rfl, rfl, rfl, rfl⟩, [Event.sleep_ms ms], rfl, rfl⟩

theorem quiet_clear {e : Nat} {s : LCDdisplay} (hr : ready e s) : quiet_step e s s.clear := by
  unfold clear
  exact quiet_step_then hr (quiet_send_full_byte _ _ hr) (fun _ => quiet_emit_sleep 10)

theorem quiet_cursor_off {e : Nat} {s : LCDdisplay} (hr : ready e s) :
    quiet_step e s s.cursor_off := by
  obtain ⟨f, n, h1, h2⟩ := quiet_send_full_byte (s := s) COMMAND [0, 0, 0, 0, 1, 1, 0, 0] hr
  exact ⟨f, n, h1, h2⟩

theorem quiet_cursor_on {e : Nat} {s : LCDdisplay} (hr : ready e s) :
    quiet_step e s s.cursor_on := by
  obtain ⟨f, n, h1, h2⟩ := quiet_send_full_byte (s := s) COMMAND [0, 0, 0, 0, 1, 1, 1, 1] hr
  exact ⟨f, n, h1, h2⟩

theorem quiet_cursor_on_blink {e : Nat} {s : LCDdisplay} (blink : Bool) (hr : ready e s) :
    quiet_step e s (s.cursor_on_blink blink) := by
  cases blink
  · obtain ⟨f, n, h1, h2⟩ := quiet_send_full_byte (s := s) COMMAND [0, 0, 0, 0, 1, 1, 1, 0] hr
    exact ⟨f, n, h1, h2⟩
  · obtain ⟨f, n, h1, h2⟩ := quiet_send_full_byte (s := s) COMMAND [0, 0, 0, 0, 1, 1, 1, 1] hr
    exact ⟨f, n, h1, h2⟩

theorem quiet_display_off {e : Nat} {s : LCDdisplay} (hr : ready e s) :
    quiet_step e s s.display_off := by
  unfold display_off
  exact quiet_send_full_byte _ _ hr

theorem quiet_display_on {e : Nat} {s : LCDdisplay} (hr : ready e s) :
    quiet_step e s s.display_on := by
  unfold display_on
  exact quiet_send_full_byte _ _ hr

theorem quiet_set_backlight {e : Nat} {s : LCDdisplay} (brightness : Int) :
    quiet_step e s (s.set_backlight brightness) := by
  unfold set_backlight
  split
  · exact ⟨⟨rfl, rfl, rfl, rfl, rfl, rfl⟩, _, rfl, rfl⟩
  · exact quiet_step_refl e s

theorem quiet_goto_pos {e : Nat} {s : LCDdisplay} (pos_i line : Int) (hr : ready e s) :
    quiet_step e s (s.goto_pos pos_i line) := by
  unfold goto_pos
  exact quiet_send_full_byte _ _ hr

theorem quiet_print_loop {e : Nat} (str : List Int) :
    ∀ (s : LCDdisplay) (eb : List Nat), ready e s → quiet_step e s (s.print_loop eb str) := by
  induction str with
  | nil => intro s eb _; exact quiet_step_refl e s
  | cons c cs ih =>
    intro s eb hr
    unfold print_loop
    split
    · exact quiet_step_refl e s
    · exact quiet_step_then hr (quiet_send_full_byte _ _ hr) (fun g => ih _ _ g)

theorem quiet_print_wrapped_loop {e : Nat} (str : List Int) :
    ∀ (s : LCDdisplay) (eb : List Nat) (i : Nat), ready e s →
      quiet_step e s (s.print_wrapped_loop eb i str) := by
  induction str with
  | nil => intro s eb i _; exact quiet_step_refl e s
  | cons c cs ih =>
    intro s eb i hr
    unfold print_wrapped_loop
    split
    · exact quiet_step_refl e s
    · simp only []
      split
      · exact quiet_step_then hr
          (quiet_step_then hr (quiet_send_full_byte _ _ hr) (fun g => quiet_goto_pos _ _ g))
          (fun g => ih _ _ _ g)
      · exact quiet_step_then hr (quiet_send_full_byte _ _ hr) (fun g => ih _ _ _ g)

theorem quiet_print {e : Nat} {s : LCDdisplay} (str : List Int) (hr : ready e s) :
    quiet_step e s (s.print str) :=
  quiet_print_loop str s _ hr

theorem quiet_print_wrapped {e : Nat} {s : LCDdisplay} (str : List Int) (hr : ready e s) :
    quiet_step e s (s.print_wrapped str) :=
  quiet_step_then hr (quiet_goto_pos 0 0 hr) (fun g => quiet_print_wrapped_loop str _ _ _ g)

theorem quiet_print_line {e : Nat} {s : LCDdisplay} (str : List Int) (line : Int)
    (hr : ready e s) : quiet_step e s (s.print_line str line) :=
  quiet_step_then hr (quiet_goto_pos 0 1 hr) (fun g => quiet_print_loop str _ _ g)

theorem quiet_displayChar {e : Nat} {s : LCDdisplay} (location : Nat) (hr : ready e s) :
    quiet_step e s (s.displayChar location) := by
  unfold displayChar
  exact quiet_send_full_byte _ _ hr

theorem quiet_glyph_rows {e : Nat} (charmap : List Nat) (rows : List Nat) :
    ∀ (st : LCDdisplay × List Nat), ready e st.1 →
      quiet_step e st.1 (rows.foldl
        (fun (st : LCDdisplay × List Nat) i =>
          (st.1.send_full_byte DATA (uint_into_8bits st.2 (charmap.getD i 0 % 256)),
            uint_into_8bits st.2 (charmap.getD i 0 % 256)))
        st).1 := by
  induction rows with
  | nil => intro st _; exact quiet_step_refl e st.1
  | cons i rest ih =>
    intro st hr
    rw [List.foldl_cons]
    exact quiet_step_then hr (quiet_send_full_byte _ _ hr) (fun g => ih (_, _) g)

theorem quiet_createCustomChar {e : Nat} {s : LCDdisplay} (location : Nat)
    (charmap : List Nat) (hr : ready e s) :
    quiet_step e s (s.createCustomChar location charmap) := by
  unfold createCustomChar
  exact quiet_step_then hr (quiet_send_full_byte _ _ hr)
    (fun g => quiet_glyph_rows charmap (List.range 8) (_, _) g)
/-! ## The masks after `init` and the steps of whole calls -/

/-- Bits of the mask that `pin_values_to_mask` builds from `n` ones: the first
`n` assigned pins. -/
theorem ones_mask_bits (s : LCDdisplay) (n : Nat) (hn : n ≤ 6)
    (hlt : ∀ i, i < n → s.LCDpins.getD i 0 < 32) (p : Nat) :
    bit (s.pin_values_to_mask [1, 1, 1, 1, 1, 1] n) p
      = if ∃ i, i < n ∧ s.LCDpins.getD i 0 = p then 1 else 0 := by
  have hones : ∀ i, i < n → ([1, 1, 1, 1, 1, 1] : List Nat).getD i 0 = 1 := by
    intro i hi
    have h6 : ∀ j, j < 6 → ([1, 1, 1, 1, 1, 1] : List Nat).getD j 0 = 1 := by decide
    exact h6 i (by omega)
  have hpa := pinArray_ones s [1, 1, 1, 1, 1, 1] n hones hlt
  have hle : ∀ q, (s.pinArray [1, 1, 1, 1, 1, 1] n).getD q 0 ≤ 1 := by
    intro q; rw [hpa q]; split <;> omega
  have hbit := (pack_rounds_spec _ hle 32 (le_refl _)).2 p
  unfold pin_values_to_mask
  rw [hbit]
  by_cases hex : ∃ i, i < n ∧ s.LCDpins.getD i 0 = p
  · obtain ⟨i, hi, he⟩ := hex
    have h32 : p < 32 := he ▸ hlt i hi
    rw [if_pos h32, if_pos ⟨i, hi, he⟩]
    have := hpa p
    rw [if_pos ⟨i, hi, he⟩] at this
    simpa using this
  · rw [if_neg hex]
    split
    · have := hpa p
      rw [if_neg hex] at this
      simpa using this
    · rfl

/-- Bits of the word that `pin_values_to_mask` builds from a payload of
zeros and ones, for distinct pins below 32. -/
theorem payload_word_bits (s : LCDdisplay) (raw : List Nat) (n : Nat)
    (hlen : s.LCDpins.length = 6) (hnodup : s.LCDpins.Nodup)
    (hlt : ∀ p ∈ s.LCDpins, p < 32) (hn : n ≤ 6)
    (hbits : ∀ i, i < n → raw.getD i 0 ≤ 1) :
    (∀ i, i < n → bit (s.pin_values_to_mask raw n) (s.LCDpins.getD i 0) = raw.getD i 0) ∧
    (∀ p, (∀ i, i < n → s.LCDpins.getD i 0 ≠ p) → bit (s.pin_values_to_mask raw n) p = 0) := by
  have hinj := pins_getD_inj s.LCDpins hnodup n (by omega)
  have hpl := pins_getD_lt s.LCDpins hlt n (by omega)
  have hpa := pinArray_le_one s raw n hinj hpl hbits
  obtain ⟨h1, h2⟩ := pinArray_spec s raw n hinj hpl
  have hbit := (pack_rounds_spec (s.pinArray raw n) hpa 32 (le_refl _)).2
  constructor
  · intro i hi
    unfold pin_values_to_mask
    rw [hbit, if_pos (hpl i hi)]
    simpa using h1 i hi
  · intro p hp
    unfold pin_values_to_mask
    rw [hbit]
    split
    · simpa using h2 p hp
    · rfl

theorem init_no_chars (s : LCDdisplay) : s.init.no_chars = s.no_chars := by
  unfold init
  simp only []
  split <;> split <;> rfl

theorem init_no_lines (s : LCDdisplay) : s.init.no_lines = s.no_lines := by
  unfold init
  simp only []
  split <;> split <;> rfl

theorem init_bl_pwm_pin (s : LCDdisplay) : s.init.bl_pwm_pin = s.bl_pwm_pin := by
  unfold init
  simp only []
  split <;> split <;> rfl

theorem init_LCDmask_eq (s : LCDdisplay) :
    s.init.LCDmask = s.pin_values_to_mask [1, 1, 1, 1, 1, 1] 5 := by
  rw [init_LCDmask]
  simp [init_pins, emit, pin_values_to_mask, pinArray]

/-- After `init` on six distinct pins below 32 the driver is ready to strobe
with its enable pin. -/
theorem ready_init (s : LCDdisplay) (hlen : s.LCDpins.length = 6) (hnodup : s.LCDpins.Nodup)
    (hlt : ∀ p ∈ s.LCDpins, p < 32) : ready (s.LCDpins.getD E 0) s.init := by
  have hpl := pins_getD_lt s.LCDpins hlt 6 (by omega)
  have hinj := pins_getD_inj s.LCDpins hnodup 6 (by omega)
  refine ⟨by rw [init_LCDpins], ?_, ?_, ?_⟩
  · rw [init_LCDmask_eq, ones_mask_bits s 5 (by omega) (fun i hi => hpl i (by omega))]
    have hno : ¬ ∃ i, i < 5 ∧ s.LCDpins.getD i 0 = s.LCDpins.getD E 0 := by
      rintro ⟨i, hi, he⟩
      have := hinj i 5 (by omega) (by omega) he
      omega
    rw [if_neg hno]
  · rw [init_LCDmask_eq, pin_values_to_mask_congr s s.init _ _ (init_LCDpins s)]
  · rw [init_LCDmask_c, pin_values_to_mask_congr s s.init _ _ (init_LCDpins s)]

theorem strobes_discipline (e : Nat) (s : LCDdisplay) (hr : ready e s)
    (payloads : List (List Nat)) :
    discipline e false ((payloads.map (strobe s)).flatten) = some false := by
  induction payloads with
  | nil => rfl
  | cons raw rest ih =>
    rw [List.map_cons, List.flatten_cons,
      discipline_append e _ _ false false (strobe_discipline e s raw hr), ih]

/-- A second `init` on a ready driver is a quiet step. -/
theorem quiet_init {e : Nat} {s : LCDdisplay} (hr : ready e s) : quiet_step e s s.init := by
  obtain ⟨r1, r2, r3, r4⟩ := hr
  have hf : frame s s.init :=
    ⟨init_LCDpins s, init_no_chars s, init_no_lines s, init_bl_pwm_pin s,
      by rw [init_LCDmask_eq, r3], by rw [init_LCDmask_c, r4]⟩
  have hri : ready e s.init := ready_of_frame ⟨r1, r2, r3, r4⟩ hf
  refine ⟨hf, [Event.gpio_init_mask (s.pin_values_to_mask [1, 1, 1, 1, 1, 1] 6),
      Event.gpio_set_dir_out_masked (s.pin_values_to_mask [1, 1, 1, 1, 1, 1] 6),
      Event.gpio_clr_mask (s.pin_values_to_mask [1, 1, 1, 1, 1, 1] 6)]
    ++ ((handshake (if s.no_lines = 2 then 0x28 else 0x20)).map (strobe s.init)).flatten
    ++ [Event.sleep_ms 10]
    ++ (if s.bl_pwm_pin < 30 then
          [Event.gpio_set_function_pwm s.bl_pwm_pin, Event.pwm_init s.bl_pwm_pin 500 100]
        else []), by rw [init_events]; simp only [List.append_assoc], ?_⟩
  have h3 : ∀ m : Nat, discipline e false
      [Event.gpio_init_mask m, Event.gpio_set_dir_out_masked m, Event.gpio_clr_mask m]
        = some false := fun m => rfl
  have htail : discipline e false (if s.bl_pwm_pin < 30 then
      [Event.gpio_set_function_pwm s.bl_pwm_pin, Event.pwm_init s.bl_pwm_pin 500 100]
      else []) = some false := by
    split <;> rfl
  rw [List.append_assoc, List.append_assoc,
    discipline_append e _ _ false false (h3 _),
    discipline_append e _ _ false false (strobes_discipline e s.init hri _),
    discipline_append e [Event.sleep_ms 10] _ false false rfl, htail]

/-- Every public call on a ready driver is a quiet step. -/
theorem quiet_apply {e : Nat} (op : Op) {s : LCDdisplay} (hr : ready e s) :
    quiet_step e s (op.apply s) := by
  cases op with
  | init => exact quiet_init hr
  | clear => exact quiet_clear hr
  | cursor_off => exact quiet_cursor_off hr
  | cursor_on => exact quiet_cursor_on hr
  | cursor_on_blink blink => exact quiet_cursor_on_blink blink hr
  | display_off => exact quiet_display_off hr
  | display_on => exact quiet_display_on hr
  | set_backlight brightness => exact quiet_set_backlight brightness
  | goto_pos pos_i line => exact quiet_goto_pos pos_i line hr
  | print str => exact quiet_print str hr
  | print_wrapped str => exact quiet_print_wrapped str hr
  | print_line str line => exact quiet_print_line str line hr
  | createCustomChar location charmap => exact quiet_createCustomChar location charmap hr
  | displayChar location => exact quiet_displayChar location hr

theorem run_ready {e : Nat} (ops : List Op) :
    ∀ s : LCDdisplay, ready e s → ready e (run ops s) ∧ frame s (run ops s) := by
  induction ops with
  | nil => intro s hr; exact ⟨hr, frame_refl s⟩
  | cons op ops ih =>
    intro s hr
    have hq := quiet_apply op hr
    have hr1 := ready_of_frame hr hq.1
    obtain ⟨h1, h2⟩ := ih (op.apply s) hr1
    exact ⟨h1, frame_trans hq.1 h2⟩
/-! ## C15: what the pins carry -/

/-- C15: for a driver constructed on six pairwise distinct pins below 32
(constructor order bit4, bit5, bit6, bit7, rs, e), initialised and then used in
any way, sending the byte `v` with register-select `rs` makes two masked pin
writes (each followed by the enable pulse).  The mask of both is exactly the
five pins bit4, bit5, bit6, bit7, rs.  In the first value word the bit7 pin
carries bit 7 of `v`, the bit6 pin bit 6, the bit5 pin bit 5, the bit4 pin
bit 4; in the second they carry bits 3, 2, 1, 0; in both the rs pin carries
`rs` and every other bit is zero. -/
theorem C15_pin_level_transfer (this : LCDdisplay)
    (bit4_pin bit5_pin bit6_pin bit7_pin rs_pin e_pin width depth : Nat)
    (hnodup : [bit4_pin, bit5_pin, bit6_pin, bit7_pin, rs_pin, e_pin].Nodup)
    (hlt : ∀ p ∈ [bit4_pin, bit5_pin, bit6_pin, bit7_pin, rs_pin, e_pin], p < 32)
    (ops : List Op) (raw_bits : List Nat) (hlen : raw_bits.length = 8) (v rs : Nat)
    (hrs : rs ≤ 1) :
    ∃ t w1 w2,
      t = run ops (this.ctor bit4_pin bit5_pin bit6_pin bit7_pin rs_pin e_pin width depth).init
      ∧ (t.send_full_byte rs (uint_into_8bits raw_bits v)).events = t.events ++
          [Event.gpio_put_masked t.LCDmask w1, Event.gpio_put e_pin 1, Event.sleep_ms 5,
           Event.gpio_put e_pin 0, Event.sleep_ms 5,
           Event.gpio_put_masked t.LCDmask w2, Event.gpio_put e_pin 1, Event.sleep_ms 5,
           Event.gpio_put e_pin 0, Event.sleep_ms 5]
      ∧ (∀ p, bit t.LCDmask p
          = if p ∈ [bit4_pin, bit5_pin, bit6_pin, bit7_pin, rs_pin] then 1 else 0)
      ∧ (bit w1 bit7_pin = bit v 7 ∧ bit w1 bit6_pin = bit v 6 ∧ bit w1 bit5_pin = bit v 5
          ∧ bit w1 bit4_pin = bit v 4 ∧ bit w1 rs_pin = rs
          ∧ ∀ p, p ∉ [bit4_pin, bit5_pin, bit6_pin, bit7_pin, rs_pin] → bit w1 p = 0)
      ∧ (bit w2 bit7_pin = bit v 3 ∧ bit w2 bit6_pin = bit v 2 ∧ bit w2 bit5_pin = bit v 1
          ∧ bit w2 bit4_pin = bit v 0 ∧ bit w2 rs_pin = rs
          ∧ ∀ p, p ∉ [bit4_pin, bit5_pin, bit6_pin, bit7_pin, rs_pin] → bit w2 p = 0) := by
  -- the constructed driver and its pins
  generalize hs0 :
    this.ctor bit4_pin bit5_pin bit6_pin bit7_pin rs_pin e_pin width depth = s0
  have hpins0 : s0.LCDpins = [bit7_pin, bit6_pin, bit5_pin, bit4_pin, rs_pin, e_pin] := by
    rw [← hs0]; rfl
  have hnd : s0.LCDpins.Nodup := by
    rw [hpins0]
    simp only [List.nodup_cons, List.mem_cons, List.mem_singleton, List.not_mem_nil,
      not_or, not_false_eq_true, List.nodup_nil, and_true] at hnodup ⊢
    omega
  have hl32 : ∀ p ∈ s0.LCDpins, p < 32 := by
    rw [hpins0]
    intro p hp
    apply hlt p
    simp only [List.mem_cons, List.mem_singleton, List.not_mem_nil, or_false] at hp ⊢
    omega
  have hr0 : ready (s0.LCDpins.getD E 0) s0.init :=
    ready_init s0 (by rw [hpins0]; rfl) hnd hl32
  obtain ⟨hr, hf⟩ := run_ready ops s0.init hr0
  generalize ht : run ops s0.init = t at hr hf
  have hpins : t.LCDpins = [bit7_pin, bit6_pin, bit5_pin, bit4_pin, rs_pin, e_pin] := by
    rw [hf.1, init_LCDpins, hpins0]
  have hndt : t.LCDpins.Nodup := by rw [hf.1, init_LCDpins]; exact hnd
  have hl32t : ∀ p ∈ t.LCDpins, p < 32 := by rw [hf.1, init_LCDpins]; exact hl32
  have he : t.LCDpins.getD E 0 = e_pin := by rw [hpins]; rfl
  have hb : ∀ k, bit v k ≤ 1 := fun k => bit_le_one v k
  obtain ⟨a1, a2⟩ := payload_word_bits t [bit v 7, bit v 6, bit v 5, bit v 4, rs] 5
    (by rw [hpins]; rfl) hndt hl32t (by omega) (by
      intro i hi
      interval_cases i <;> simp [hb, hrs])
  obtain ⟨b1, b2⟩ := payload_word_bits t [bit v 3, bit v 2, bit v 1, bit v 0, rs] 5
    (by rw [hpins]; rfl) hndt hl32t (by omega) (by
      intro i hi
      interval_cases i <;> simp [hb, hrs])
  have hfive : ∀ p, (∃ i, i < 5 ∧ t.LCDpins.getD i 0 = p)
      ↔ p ∈ [bit4_pin, bit5_pin, bit6_pin, bit7_pin, rs_pin] := by
    intro p
    rw [hpins]
    constructor
    · rintro ⟨i, hi, rfl⟩
      interval_cases i <;> simp
    · intro hp
      simp only [List.mem_cons, List.mem_singleton, List.not_mem_nil, or_false] at hp
      rcases hp with h | h | h | h | h
      · exact ⟨3, by omega, by rw [h]; rfl⟩
      · exact ⟨2, by omega, by rw [h]; rfl⟩
      · exact ⟨1, by omega, by rw [h]; rfl⟩
      · exact ⟨0, by omega, by rw [h]; rfl⟩
      · exact ⟨4, by omega, by rw [h]; rfl⟩
  have hother : ∀ p, p ∉ [bit4_pin, bit5_pin, bit6_pin, bit7_pin, rs_pin] →
      ∀ i, i < 5 → t.LCDpins.getD i 0 ≠ p :=
    fun p hp i hi heq => hp ((hfive p).1 ⟨i, hi, heq⟩)
  refine ⟨t, t.pin_values_to_mask [bit v 7, bit v 6, bit v 5, bit v 4, rs] 5,
    t.pin_values_to_mask [bit v 3, bit v 2, bit v 1, bit v 0, rs] 5, rfl, ?_, ?_, ?_, ?_⟩
  · rw [uint_into_8bits_eq raw_bits v hlen, send_full_byte_events]
    simp only [strobe, he, HIGH, LOW, List.append_assoc, List.cons_append, List.nil_append]
  · intro p
    rw [hr.2.2.1, ones_mask_bits t 5 (by omega)
      (fun i hi => pins_getD_lt t.LCDpins hl32t 5 (by rw [hpins]; simp) i hi)]
    by_cases hp : p ∈ [bit4_pin, bit5_pin, bit6_pin, bit7_pin, rs_pin]
    · rw [if_pos hp, if_pos ((hfive p).2 hp)]
    · rw [if_neg hp, if_neg (fun h => hp ((hfive p).1 h))]
  · have h0 := a1 0 (by omega)
    have h1 := a1 1 (by omega)
    have h2 := a1 2 (by omega)
    have h3 := a1 3 (by omega)
    have h4 := a1 4 (by omega)
    rw [hpins] at h0 h1 h2 h3 h4
    exact ⟨h0, h1, h2, h3, h4, fun p hp => a2 p (hother p hp)⟩
  · have h0 := b1 0 (by omega)
    have h1 := b1 1 (by omega)
    have h2 := b1 2 (by omega)
    have h3 := b1 3 (by omega)
    have h4 := b1 4 (by omega)
    rw [hpins] at h0 h1 h2 h3 h4
    exact ⟨h0, h1, h2, h3, h4, fun p hp => b2 p (hother p hp)⟩

/-- Witness for C15: the byte `0xA5` as data on the example display, right
after `init`; the first value word has the bit7 pin (5) and the rs pin (14)
high. -/
theorem C15_pin_level_transfer_witness :
    ∃ w1 : Nat, bit w1 5 = bit 0xA5 7 ∧ bit w1 14 = 1 := by
  obtain ⟨_, w1, _, _, _, _, h1, _⟩ := C15_pin_level_transfer zeroed 2 3 4 5 14 15 16 2
    (by decide) (by decide) [] (List.replicate 8 0) rfl 0xA5 1 (by decide)
  exact ⟨w1, h1.1, h1.2.2.2.2.1⟩

/-! ## C16: the enable strobe -/

/-- C16: every nibble cycle adds exactly the calls: masked write of the
payload word, enable high, 5 ms delay, enable low, 5 ms delay.  For a driver
on six pairwise distinct pins below 32, after `init` and any sequence of
public calls, the calls that one more public call adds follow the strobe
discipline (between enable high and the next enable low only delays occur, no
masked write includes the enable pin) and leave the enable line low; the
payload mask does not contain the enable pin, and the configuration mask is
the payload mask plus the enable pin's bit. -/
theorem C16_strobe_discipline (s0 : LCDdisplay) (hlen : s0.LCDpins.length = 6)
    (hnodup : s0.LCDpins.Nodup) (hlt : ∀ p ∈ s0.LCDpins, p < 32)
    (ops : List Op) (op : Op) (raw : List Nat) :
    ((run ops s0.init).send_raw_data_one_cycle raw).events
        = (run ops s0.init).events ++
          [Event.gpio_put_masked (run ops s0.init).LCDmask
             ((run ops s0.init).pin_values_to_mask raw 5),
           Event.gpio_put (s0.LCDpins.getD E 0) 1, Event.sleep_ms 5,
           Event.gpio_put (s0.LCDpins.getD E 0) 0, Event.sleep_ms 5]
      ∧ (∃ new, (op.apply (run ops s0.init)).events = (run ops s0.init).events ++ new
          ∧ discipline (s0.LCDpins.getD E 0) false new = some false)
      ∧ bit (run ops s0.init).LCDmask (s0.LCDpins.getD E 0) = 0
      ∧ (∀ p, bit (run ops s0.init).LCDmask_c p
          = bit (run ops s0.init).LCDmask p + if p = s0.LCDpins.getD E 0 then 1 else 0) := by
  have hr0 := ready_init s0 hlen hnodup hlt
  obtain ⟨hr, hf⟩ := run_ready ops s0.init hr0
  generalize run ops s0.init = t at hr hf
  have hpins : t.LCDpins = s0.LCDpins := by rw [hf.1, init_LCDpins]
  have hpl := pins_getD_lt s0.LCDpins hlt 6 (by omega)
  have hinj := pins_getD_inj s0.LCDpins hnodup 6 (by omega)
  refine ⟨?_, (quiet_apply op hr).2, hr.2.1, ?_⟩
  · rw [send_raw_events]
    simp only [strobe, hr.1, HIGH, LOW]
  · intro p
    rw [hr.2.2.2, hr.2.2.1,
      ones_mask_bits t 6 (by omega) (fun i hi => by rw [hpins]; exact hpl i hi),
      ones_mask_bits t 5 (by omega) (fun i hi => by rw [hpins]; exact hpl i (by omega)),
      hpins]
    by_cases h5 : ∃ i, i < 5 ∧ s0.LCDpins.getD i 0 = p
    · obtain ⟨i, hi, he⟩ := h5
      have hne : p ≠ s0.LCDpins.getD E 0 := by
        intro h
        have := hinj i 5 (by omega) (by omega) (he.trans h)
        omega
      rw [if_pos ⟨i, by omega, he⟩, if_pos ⟨i, hi, he⟩, if_neg hne]
    · rw [if_neg h5]
      by_cases hpe : p = s0.LCDpins.getD E 0
      · rw [if_pos ⟨5, by omega, hpe.symm⟩, if_pos hpe]
      · have h6 : ¬ ∃ i, i < 6 ∧ s0.LCDpins.getD i 0 = p := by
          rintro ⟨i, hi, he⟩
          by_cases hi5 : i = 5
          · exact hpe (by rw [← he, hi5]; rfl)
          · exact h5 ⟨i, by omega, he⟩
        rw [if_neg h6, if_neg hpe]

/-- Witness for C16: `print_wrapped` after `init` and `clear` on the example
display. -/
theorem C16_strobe_discipline_witness :
    ∃ new, ((Op.print_wrapped (chars "Hello World")).apply
        (run [Op.clear] lcd_ctrl.init)).events = (run [Op.clear] lcd_ctrl.init).events ++ new
      ∧ discipline 15 false new = some false :=
  (C16_strobe_discipline lcd_ctrl (by decide) (by decide) (by decide) [Op.clear]
    (Op.print_wrapped (chars "Hello World")) []).2.1

/-! ## C17: what the calls leave alone -/

theorem same_setup_refl (s : LCDdisplay) : same_setup s s := ⟨rfl, rfl, rfl⟩

theorem same_setup_trans {s t u : LCDdisplay} (h1 : same_setup s t) (h2 : same_setup t u) :
    same_setup s u :=
  ⟨h2.1.trans h1.1, h2.2.1.trans h1.2.1, h2.2.2.trans h1.2.2⟩

theorem setup_send_full_byte (s : LCDdisplay) (rs : Nat) (d : List Nat) :
    same_setup s (s.send_full_byte rs d) := ⟨rfl, rfl, rfl⟩

theorem setup_goto_pos (s : LCDdisplay) (pos_i line : Int) :
    same_setup s (s.goto_pos pos_i line) := ⟨rfl, rfl, rfl⟩

theorem setup_print_loop (str : List Int) :
    ∀ (s : LCDdisplay) (eb : List Nat), same_setup s (s.print_loop eb str) := by
  induction str with
  | nil => intro s eb; exact same_setup_refl s
  | cons c cs ih =>
    intro s eb
    unfold print_loop
    split
    · exact same_setup_refl s
    · exact same_setup_trans (setup_send_full_byte s _ _) (ih _ _)

theorem setup_print_wrapped_loop (str : List Int) :
    ∀ (s : LCDdisplay) (eb : List Nat) (i : Nat),
      same_setup s (s.print_wrapped_loop eb i str) := by
  induction str with
  | nil => intro s eb i; exact same_setup_refl s
  | cons c cs ih =>
    intro s eb i
    unfold print_wrapped_loop
    split
    · exact same_setup_refl s
    · simp only []
      split
      · exact same_setup_trans
          (same_setup_trans (setup_send_full_byte s _ _) (setup_goto_pos _ _ _)) (ih _ _ _)
      · exact same_setup_trans (setup_send_full_byte s _ _) (ih _ _ _)

theorem setup_glyph_rows (charmap : List Nat) (rows : List Nat) :
    ∀ (st : LCDdisplay × List Nat),
      same_setup st.1 (rows.foldl
        (fun (st : LCDdisplay × List Nat) i =>
          (st.1.send_full_byte DATA (uint_into_8bits st.2 (charmap.getD i 0 % 256)),
            uint_into_8bits st.2 (charmap.getD i 0 % 256)))
        st).1 := by
  induction rows with
  | nil => intro st; exact same_setup_refl st.1
  | cons i rest ih =>
    intro st
    rw [List.foldl_cons]
    exact same_setup_trans (setup_send_full_byte st.1 _ _) (ih (_, _))

/-- Every public call keeps the pin assignment and the geometry. -/
theorem setup_apply (op : Op) (s : LCDdisplay) : same_setup s (op.apply s) := by
  cases op with
  | init => exact ⟨init_LCDpins s, init_no_chars s, init_no_lines s⟩
  | clear => exact ⟨rfl, rfl, rfl⟩
  | cursor_off => exact ⟨rfl, rfl, rfl⟩
  | cursor_on => exact ⟨rfl, rfl, rfl⟩
  | cursor_on_blink blink => exact ⟨rfl, rfl, rfl⟩
  | display_off => exact ⟨rfl, rfl, rfl⟩
  | display_on => exact ⟨rfl, rfl, rfl⟩
  | set_backlight brightness =>
    show same_setup s (s.set_backlight brightness)
    unfold set_backlight
    split
    · exact ⟨rfl, rfl, rfl⟩
    · exact same_setup_refl s
  | goto_pos pos_i line => exact setup_goto_pos s pos_i line
  | print str => exact setup_print_loop str s _
  | print_wrapped str =>
    exact same_setup_trans (setup_goto_pos s 0 0) (setup_print_wrapped_loop str _ _ _)
  | print_line str line =>
    exact same_setup_trans (setup_goto_pos s 0 1) (setup_print_loop str _ _)
  | createCustomChar location charmap =>
    show same_setup s (s.createCustomChar location charmap)
    unfold createCustomChar
    exact same_setup_trans (setup_send_full_byte s _ _)
      (setup_glyph_rows charmap (List.range 8) (_, _))
  | displayChar location => exact ⟨rfl, rfl, rfl⟩

theorem setup_run (ops : List Op) : ∀ s : LCDdisplay, same_setup s (run ops s) := by
  induction ops with
  | nil => intro s; exact same_setup_refl s
  | cons op ops ih =>
    intro s
    exact same_setup_trans (setup_apply op s) (ih (op.apply s))

/-- C17: `clear`, `goto_pos`, `print(text)`, `print(text, line)`,
`print_wrapped`, `createCustomChar`, `displayChar`, `display_on`,
`display_off` and `set_backlight` leave `cursor_status` as it was, for every
driver state and every argument; and no public call, nor any sequence of
public calls, changes `LCDpins`, `no_chars` or `no_lines`. -/
theorem C17_frame (s : LCDdisplay) (pos_i line brightness : Int) (text : List Int)
    (location : Nat) (charmap : List Nat) (op : Op) (ops : List Op) :
    s.clear.cursor_status = s.cursor_status
      ∧ (s.goto_pos pos_i line).cursor_status = s.cursor_status
      ∧ (s.print text).cursor_status = s.cursor_status
      ∧ (s.print_line text line).cursor_status = s.cursor_status
      ∧ (s.print_wrapped text).cursor_status = s.cursor_status
      ∧ (s.createCustomChar location charmap).cursor_status = s.cursor_status
      ∧ (s.displayChar location).cursor_status = s.cursor_status
      ∧ s.display_on.cursor_status = s.cursor_status
      ∧ s.display_off.cursor_status = s.cursor_status
      ∧ (s.set_backlight brightness).cursor_status = s.cursor_status
      ∧ ((op.apply s).LCDpins = s.LCDpins ∧ (op.apply s).no_chars = s.no_chars
          ∧ (op.apply s).no_lines = s.no_lines)
      ∧ ((run ops s).LCDpins = s.LCDpins ∧ (run ops s).no_chars = s.no_chars
          ∧ (run ops s).no_lines = s.no_lines) :=
  ⟨clear_cursor_status s, goto_pos_cursor_status s pos_i line, print_cursor_status s text,
    print_line_cursor_status s text line, print_wrapped_cursor_status s text,
    createCustomChar_cursor_status s location charmap, displayChar_cursor_status s location,
    display_on_cursor_status s, display_off_cursor_status s,
    set_backlight_cursor_status s brightness, setup_apply op s, setup_run ops s⟩

/-! ## C18: the cursor calls switch the display on -/

/-- C18: `cursor_on()`, `cursor_on(blink)` and `cursor_off()` send a
display-control byte (`0x0F`, `0x0E` or `0x0F`, `0x0C`) whose display-on bit
(bit 2) is set, in every driver state; so `display_off()` followed by
`cursor_off()` ends with the command byte `0x0C`. -/
theorem C18_cursor_calls_set_display_on (s : LCDdisplay) :
    s.cursor_on.cycles = s.cycles ++ byte_cycles COMMAND 0x0F
      ∧ (s.cursor_on_blink false).cycles = s.cycles ++ byte_cycles COMMAND 0x0E
      ∧ (s.cursor_on_blink true).cycles = s.cycles ++ byte_cycles COMMAND 0x0F
      ∧ s.cursor_off.cycles = s.cycles ++ byte_cycles COMMAND 0x0C
      ∧ (bit 0x0F 2 = 1 ∧ bit 0x0E 2 = 1 ∧ bit 0x0C 2 = 1)
      ∧ s.display_off.cursor_off.cycles = s.display_off.cycles ++ byte_cycles COMMAND 0x0C
      ∧ COMMAND = 0 := by
  refine ⟨?_, ?_, ?_, ?_, by decide, ?_, rfl⟩
  · exact send_full_byte_cycles s COMMAND 0 0 0 0 1 1 1 1
  · exact send_full_byte_cycles s COMMAND 0 0 0 0 1 1 1 0
  · exact send_full_byte_cycles s COMMAND 0 0 0 0 1 1 1 1
  · exact send_full_byte_cycles s COMMAND 0 0 0 0 1 1 0 0
  · exact send_full_byte_cycles s.display_off COMMAND 0 0 0 0 1 1 0 0

/-! ## C20: wrapping past the last line of a two-line display -/

theorem mod_between (c i k : Nat) (hi : i % c = 0) (h1 : i < k) (h2 : k < i + c) :
    k % c ≠ 0 := by
  obtain ⟨d, rfl⟩ : ∃ d, k = i + d := ⟨k - i, by omega⟩
  have hd : d < c := by omega
  rw [Nat.add_mod, hi, Nat.zero_add, Nat.mod_mod, Nat.mod_eq_of_lt hd]
  omega

theorem send_full_byte_extends (s : LCDdisplay) (rs : Nat) (d : List Nat) :
    ∃ more, (s.send_full_byte rs d).cycles = s.cycles ++ more := by
  unfold send_full_byte send_raw_data_one_cycle
  exact ⟨_, List.append_assoc _ _ _⟩

theorem extends_trans {s t u : LCDdisplay} (h1 : ∃ more, t.cycles = s.cycles ++ more)
    (h2 : ∃ more, u.cycles = t.cycles ++ more) : ∃ more, u.cycles = s.cycles ++ more := by
  obtain ⟨m1, e1⟩ := h1
  obtain ⟨m2, e2⟩ := h2
  exact ⟨m1 ++ m2, by rw [e2, e1, List.append_assoc]⟩

/-- The cycles of the wrapped loop extend the history. -/
theorem print_wrapped_loop_extends (str : List Int) :
    ∀ (s : LCDdisplay) (eb : List Nat) (i : Nat),
      ∃ more, (s.print_wrapped_loop eb i str).cycles = s.cycles ++ more := by
  induction str with
  | nil => intro s eb i; exact ⟨[], by simp [print_wrapped_loop]⟩
  | cons c cs ih =>
    intro s eb i
    unfold print_wrapped_loop
    split
    · exact ⟨[], by simp⟩
    · simp only []
      split
      · exact extends_trans
          (extends_trans (send_full_byte_extends s _ _) (send_full_byte_extends _ _ _))
          (ih _ _ _)
      · exact extends_trans (send_full_byte_extends s _ _) (ih _ _ _)

/-- A full row of a two-line display: `no_chars` characters written from a
multiple `k * no_chars` on are followed by the position command for row
`k + 1`. -/
theorem print_wrapped_loop_full_row (s : LCDdisplay) (eb : List Nat) (k : Nat)
    (text : List Int) (h2 : s.no_lines = 2) (hc : 0 < s.no_chars)
    (hlen : text.length = s.no_chars) (heb : eb.length = 8) (hnz : ∀ x ∈ text, x ≠ 0)
    (hk : 64 * (k + 1) + 128 < 2 ^ 32) :
    (s.print_wrapped_loop eb (k * s.no_chars) text).cycles
        = s.cycles ++ data_cycles text ++ byte_cycles COMMAND (64 * (k + 1) + 0x80)
      ∧ (s.print_wrapped_loop eb (k * s.no_chars) text).no_chars = s.no_chars
      ∧ (s.print_wrapped_loop eb (k * s.no_chars) text).no_lines = s.no_lines := by
  rcases List.eq_nil_or_concat text with hnil | ⟨a, x, hax⟩
  · rw [hnil] at hlen; simp at hlen; omega
  · rw [List.concat_eq_append] at hax
    subst hax
    have ha : a.length + 1 = s.no_chars := by simpa using hlen
    have hza : ∀ y ∈ a, y ≠ 0 := fun y hy => hnz y (List.mem_append_left _ hy)
    have hzx : x ≠ 0 := hnz x (List.mem_append_right _ (List.mem_singleton_self x))
    have hi0 : (k * s.no_chars) % s.no_chars = 0 := Nat.mul_mod_left k s.no_chars
    obtain ⟨e1, e2, e3⟩ := print_wrapped_loop_no_wrap a s eb (k * s.no_chars) heb hza
      (fun j hj1 hj2 => mod_between s.no_chars _ j hi0 hj1 (by omega))
    rw [print_wrapped_loop_append a [x] s eb _ heb hza]
    generalize s.print_wrapped_loop eb (k * s.no_chars) a = s1 at e1 e2 e3
    have hidx : k * s.no_chars + a.length + 1 = (k + 1) * s.no_chars := by
      rw [Nat.add_mul, Nat.one_mul]; omega
    have hmod : (k * s.no_chars + a.length + 1) % s.no_chars = 0 := by
      rw [hidx]; exact Nat.mul_mod_left _ _
    have hdiv : (k * s.no_chars + a.length + 1) / s.no_chars = k + 1 := by
      rw [hidx]; exact Nat.mul_div_cancel _ hc
    simp only [print_wrapped_loop, hzx, if_false, send_full_byte_no_chars, e2, hmod, if_true,
      hdiv, goto_pos_no_chars, goto_pos_no_lines, send_full_byte_no_lines, e3, true_and,
      and_true]
    have hg := goto_pos_two_lines (s1.send_full_byte DATA
      (uint_into_8bits (List.replicate 8 0) (x % 2 ^ 32).toNat)) 0 (k + 1)
      (by rw [send_full_byte_no_lines, e3]; exact h2) (by omega)
    rw [send_char_cycles _ (List.replicate 8 0) _ rfl, e1] at hg
    simp only [Nat.cast_zero, Nat.add_zero] at hg
    rw [hg, data_cycles_append]
    simp [data_cycles]

/-- C20: on a two-line display of any width `c > 0`, for every text without
NUL of length at least `2 * c`, `print_wrapped` sends the position command
`0x80`, the first `c` characters, the position command `0xC0` for row 1, the
next `c` characters and then, right after the `2 * c`-th character, the
position command for row 2, whose byte is `(64 * 2 + 0x80) mod 256 = 0x00`: a
command byte with the top bit clear. -/
theorem C20_wrap_past_last_line (s : LCDdisplay) (text : List Int) (h2 : s.no_lines = 2)
    (hc : 0 < s.no_chars) (hlen : 2 * s.no_chars ≤ text.length) (hnz : ∀ x ∈ text, x ≠ 0) :
    (∃ more, (s.print_wrapped text).cycles
        = s.cycles ++ byte_cycles COMMAND 0x80 ++ data_cycles (text.take s.no_chars)
            ++ byte_cycles COMMAND 0xC0
            ++ data_cycles ((text.drop s.no_chars).take s.no_chars)
            ++ byte_cycles COMMAND 0x00 ++ more)
      ∧ (64 * 2 + 0x80) % 256 = 0 ∧ bit 0x00 7 = 0 ∧ COMMAND = 0 := by
  refine ⟨?_, by decide, by decide, rfl⟩
  have hsplit : text = text.take s.no_chars
      ++ ((text.drop s.no_chars).take s.no_chars ++ (text.drop s.no_chars).drop s.no_chars) := by
    rw [List.take_append_drop, List.take_append_drop]
  generalize ht1 : text.take s.no_chars = t1 at hsplit
  generalize ht2 : (text.drop s.no_chars).take s.no_chars = t2 at hsplit
  generalize (text.drop s.no_chars).drop s.no_chars = rest at hsplit
  have hl1 : t1.length = s.no_chars := by rw [← ht1, List.length_take]; omega
  have hl2 : t2.length = s.no_chars := by
    rw [← ht2, List.length_take, List.length_drop]; omega
  have hz1 : ∀ x ∈ t1, x ≠ 0 := fun x hx => hnz x (by rw [hsplit]; simp [hx])
  have hz2 : ∀ x ∈ t2, x ≠ 0 := fun x hx => hnz x (by rw [hsplit]; simp [hx])
  have h0 : (s.goto_pos 0 0).cycles = s.cycles ++ byte_cycles COMMAND 0x80 := by
    simpa using goto_pos_two_lines s 0 0 h2 (by decide)
  obtain ⟨a1, a2, a3⟩ := print_wrapped_loop_full_row (s.goto_pos 0 0) (List.replicate 8 0) 0
    t1 (by rw [goto_pos_no_lines]; exact h2) (by rw [goto_pos_no_chars]; exact hc)
    (by rw [goto_pos_no_chars]; exact hl1) rfl hz1 (by decide)
  rw [Nat.zero_mul] at a1 a2 a3
  rw [goto_pos_no_chars] at a2
  rw [goto_pos_no_lines] at a3
  generalize hs1 : (s.goto_pos 0 0).print_wrapped_loop (List.replicate 8 0) 0 t1 = s1
    at a1 a2 a3
  obtain ⟨b1, _, _⟩ := print_wrapped_loop_full_row s1 (List.replicate 8 0) 1
    t2 (by rw [a3]; exact h2) (by rw [a2]; exact hc) (by rw [a2]; exact hl2) rfl hz2
    (by decide)
  rw [Nat.one_mul, a2] at b1
  generalize hs2 : s1.print_wrapped_loop (List.replicate 8 0) s.no_chars t2 = s2 at b1
  obtain ⟨more, hm⟩ := print_wrapped_loop_extends rest s2 (List.replicate 8 0)
    (s.no_chars + t2.length)
  refine ⟨more, ?_⟩
  unfold print_wrapped
  rw [hsplit, print_wrapped_loop_append t1 _ _ (List.replicate 8 0) 0 rfl hz1, hs1,
    Nat.zero_add, hl1, print_wrapped_loop_append t2 _ _ (List.replicate 8 0) _ rfl hz2, hs2,
    hm, b1, a1, h0]
  have e256 : byte_cycles COMMAND (64 * (1 + 1) + 0x80) = byte_cycles COMMAND 0x00 := by
    rw [← byte_cycles_mod_256]
  rw [e256]

/-- Witness for C20: a text of 33 characters on the 16x2 example display. -/
theorem C20_wrap_past_last_line_witness :
    ∃ more, (lcd_ctrl.print_wrapped (chars "0123456789ABCDEF0123456789abcdef!")).cycles
        = lcd_ctrl.cycles ++ byte_cycles COMMAND 0x80
            ++ data_cycles ((chars "0123456789ABCDEF0123456789abcdef!").take 16)
            ++ byte_cycles COMMAND 0xC0
            ++ data_cycles (((chars "0123456789ABCDEF0123456789abcdef!").drop 16).take 16)
            ++ byte_cycles COMMAND 0x00 ++ more :=
  (C20_wrap_past_last_line lcd_ctrl (chars "0123456789ABCDEF0123456789abcdef!") (by decide)
    (by decide) (by decide) (by decide)).1

/-! ## C19: the tracked cursor flags and the controller's register -/

/-- C19 as stated fails on a wide display: after `init`, `cursor_on()` and
`goto_pos(136, 0)` on a 200x2 display (all inside the geometry) the most
recent display-control byte in the trace is `0x08`, sent by `goto_pos` because
`136 + 0x80 = 264` is cut to eight bits; its bits 1 and 0 are (0, 0) while the
tracked flags are (1, 1). -/
theorem C19_counterexample_wide_display :
    in_geometry lcd_200x2.no_chars lcd_200x2.no_lines Op.cursor_on = true
      ∧ in_geometry lcd_200x2.no_chars lcd_200x2.no_lines (Op.goto_pos 136 0) = true
      ∧ last_display_control
          ((run [Op.cursor_on, Op.goto_pos 136 0] lcd_200x2.init).cycles.drop
            lcd_200x2.cycles.length) = some (0, 0x08)
      ∧ (run [Op.cursor_on, Op.goto_pos 136 0] lcd_200x2.init).cursor_status = (1, 1)
      ∧ (bit 0x08 1, bit 0x08 0) ≠ (1, 1) := by
  refine ⟨by decide, by decide, ?_, rfl, by decide⟩
  decide

theorem bytes_to_cycles_append (a b : List (Nat × Nat)) :
    bytes_to_cycles (a ++ b) = bytes_to_cycles a ++ bytes_to_cycles b := by
  simp [bytes_to_cycles]

theorem bytes_to_cycles_single (rs v : Nat) : bytes_to_cycles [(rs, v)] = byte_cycles rs v := by
  simp [bytes_to_cycles]

theorem decode_byte_cycles (rs v : Nat) (hv : v < 256) (rest : List (List Nat)) :
    decode_bytes (byte_cycles rs v ++ rest) = (rs, v) :: decode_bytes rest := by
  have h : 16 * nibble_value [bit v 7, bit v 6, bit v 5, bit v 4, rs]
      + nibble_value [bit v 3, bit v 2, bit v 1, bit v 0, rs] = v := by
    simp [nibble_value, bit]; omega
  simp only [byte_cycles, List.cons_append, List.nil_append, decode_bytes, h]
  rfl

/-- Decoding the payloads of a sequence of bytes gives the bytes back. -/
theorem decode_bytes_to_cycles (bs : List (Nat × Nat)) (hbs : ∀ b ∈ bs, b.2 < 256) :
    decode_bytes (bytes_to_cycles bs) = bs := by
  induction bs with
  | nil => rfl
  | cons b rest ih =>
    have e : bytes_to_cycles (b :: rest) = byte_cycles b.1 b.2 ++ bytes_to_cycles rest := by
      simp [bytes_to_cycles]
    rw [e, decode_byte_cycles _ _ (hbs b (List.mem_cons_self b rest)),
      ih (fun x hx => hbs x (List.mem_cons_of_mem b hx))]

theorem tracked_append_plain (bs add : List (Nat × Nat)) (st : Nat × Nat)
    (h : tracked bs st) (hadd : add.filter is_display_control = []) :
    tracked (bs ++ add) st := by
  obtain ⟨b, h1, h2⟩ := h
  exact ⟨b, by rw [List.filter_append, hadd, List.append_nil, h1], h2⟩

theorem tracked_append_control (bs : List (Nat × Nat)) (b : Nat)
    (hb : is_display_control (0, b) = true) :
    tracked (bs ++ [(0, b)]) (bit b 1, bit b 0) := by
  refine ⟨b, ?_, rfl⟩
  rw [List.filter_append]
  simp [List.filter, hb]

theorem char_byte_lt (c : Int) : char_byte c < 256 := by
  unfold char_byte; omega

theorem data_cycles_as_bytes (text : List Int) :
    data_cycles text = bytes_to_cycles (text.map (fun c => (DATA, char_byte c))) := by
  simp only [data_cycles, bytes_to_cycles, List.map_map]
  rfl

/-- The loop of `print` on any text sends a stretch of the text as data. -/
theorem print_loop_sends_data (str : List Int) :
    ∀ (s : LCDdisplay) (eb : List Nat), eb.length = 8 →
      ∃ sent, (s.print_loop eb str).cycles = s.cycles ++ data_cycles sent := by
  induction str with
  | nil => intro s eb _; exact ⟨[], by simp [print_loop, data_cycles]⟩
  | cons c cs ih =>
    intro s eb h
    unfold print_loop
    split
    · exact ⟨[], by simp [data_cycles]⟩
    · obtain ⟨sent, hs⟩ := ih (s.send_full_byte DATA (uint_into_8bits eb (c % 2 ^ 32).toNat))
        (uint_into_8bits eb (c % 2 ^ 32).toNat) (uint_into_8bits_length eb _ h)
      refine ⟨c :: sent, ?_⟩
      rw [hs, send_char_cycles _ _ _ h]
      simp [data_cycles]

theorem data_bytes_not_control (l : List (Nat × Nat)) (h : ∀ b ∈ l, b.1 = 1) :
    l.filter is_display_control = [] := by
  rw [List.filter_eq_nil_iff]
  intro b hb
  simp [is_display_control, h b hb]

theorem display_control_bits (v b : Nat) (hv : v ≤ 1) (hb : b ≤ 1) (base : Nat)
    (hbase : base = 0x08 ∨ base = 0x0C) :
    is_display_control (0, base ||| (v <<< 1) ||| b) = true
      ∧ (bit (base ||| (v <<< 1) ||| b) 1, bit (base ||| (v <<< 1) ||| b) 0) = (v, b) := by
  rcases hbase with rfl | rfl <;> interval_cases v <;> interval_cases b <;> decide

/-- What one call of C19 adds to the trace: bytes below 256 that either contain
no display-control byte and leave the flags alone, or consist of a single
display-control byte whose bits 1 and 0 are the new flags. -/
theorem tracked_step (op : Op) (t : LCDdisplay) (hl : t.no_lines = 2 ∨ t.no_lines = 4)
    (hst : t.cursor_status.1 ≤ 1 ∧ t.cursor_status.2 ≤ 1)
    (hop : in_geometry t.no_chars t.no_lines op = true)
    (haddr : address_fits t.no_lines op = true) :
    ∃ add : List (Nat × Nat),
      (op.apply t).cycles = t.cycles ++ bytes_to_cycles add ∧ (∀ b ∈ add, b.2 < 256) ∧
      ((add.filter is_display_control = [] ∧ (op.apply t).cursor_status = t.cursor_status) ∨
        (∃ b, add = [(0, b)] ∧ is_display_control (0, b) = true
          ∧ (op.apply t).cursor_status = (bit b 1, bit b 0))) := by
  cases op with
  | init => simp [in_geometry] at hop
  | set_backlight brightness => simp [in_geometry] at hop
  | print_wrapped str => simp [in_geometry] at hop
  | print_line str line => simp [in_geometry] at hop
  | clear =>
    refine ⟨[(0, 1)], ?_, by decide, Or.inl ⟨by decide, rfl⟩⟩
    rw [bytes_to_cycles_single]
    exact clear_cycles t
  | cursor_off =>
    refine ⟨[(0, 0x0C)], ?_, by decide, Or.inr ⟨0x0C, rfl, by decide, rfl⟩⟩
    rw [bytes_to_cycles_single]
    exact send_full_byte_cycles t COMMAND 0 0 0 0 1 1 0 0
  | cursor_on =>
    refine ⟨[(0, 0x0F)], ?_, by decide, Or.inr ⟨0x0F, rfl, by decide, rfl⟩⟩
    rw [bytes_to_cycles_single]
    exact send_full_byte_cycles t COMMAND 0 0 0 0 1 1 1 1
  | cursor_on_blink blink =>
    cases blink
    · refine ⟨[(0, 0x0E)], ?_, by decide, Or.inr ⟨0x0E, rfl, by decide, rfl⟩⟩
      rw [bytes_to_cycles_single]
      exact send_full_byte_cycles t COMMAND 0 0 0 0 1 1 1 0
    · refine ⟨[(0, 0x0F)], ?_, by decide, Or.inr ⟨0x0F, rfl, by decide, rfl⟩⟩
      rw [bytes_to_cycles_single]
      exact send_full_byte_cycles t COMMAND 0 0 0 0 1 1 1 1
  | display_off =>
    obtain ⟨h1, h2⟩ := display_control_bits t.cursor_status.1 t.cursor_status.2 hst.1 hst.2
      0x08 (Or.inl rfl)
    refine ⟨[(0, 0x08 ||| (t.cursor_status.1 <<< 1) ||| t.cursor_status.2)], ?_, ?_,
      Or.inr ⟨_, rfl, h1, ?_⟩⟩
    · rw [bytes_to_cycles_single]
      exact display_off_cycles t hst.1 hst.2
    · intro b hb
      rw [List.mem_singleton] at hb
      subst hb
      simp [is_display_control] at h1
      exact Nat.lt_of_lt_of_le h1.2 (by decide)
    · rw [h2]; rfl
  | display_on =>
    obtain ⟨h1, h2⟩ := display_control_bits t.cursor_status.1 t.cursor_status.2 hst.1 hst.2
      0x0C (Or.inr rfl)
    refine ⟨[(0, 0x0C ||| (t.cursor_status.1 <<< 1) ||| t.cursor_status.2)], ?_, ?_,
      Or.inr ⟨_, rfl, h1, ?_⟩⟩
    · rw [bytes_to_cycles_single]
      exact display_on_cycles t hst.1 hst.2
    · intro b hb
      rw [List.mem_singleton] at hb
      subst hb
      simp [is_display_control] at h1
      exact Nat.lt_of_lt_of_le h1.2 (by decide)
    · rw [h2]; rfl
  | print str =>
    obtain ⟨sent, hs⟩ := print_loop_sends_data str t (List.replicate 8 0) rfl
    refine ⟨sent.map (fun c => (DATA, char_byte c)), ?_, ?_, Or.inl ⟨?_, ?_⟩⟩
    · rw [← data_cycles_as_bytes]; exact hs
    · intro b hb
      obtain ⟨c, _, rfl⟩ := List.mem_map.1 hb
      exact char_byte_lt c
    · apply data_bytes_not_control
      intro b hb
      obtain ⟨c, _, rfl⟩ := List.mem_map.1 hb
      rfl
    · exact print_cursor_status t str
  | displayChar location =>
    refine ⟨[(1, location % 256)], ?_, ?_, Or.inl ⟨by simp [is_display_control], rfl⟩⟩
    · rw [bytes_to_cycles_single]
      exact send_byte_cycles t DATA (location % 256) (List.replicate 8 0) rfl
    · intro b hb
      rw [List.mem_singleton] at hb
      subst hb
      exact Nat.mod_lt _ (by decide)
  | createCustomChar location charmap =>
    have hloc : location ≤ 7 := by simpa [in_geometry] using hop
    refine ⟨[(0, 0x40 + location % 256 * 8), (1, charmap.getD 0 0 % 256),
      (1, charmap.getD 1 0 % 256), (1, charmap.getD 2 0 % 256), (1, charmap.getD 3 0 % 256),
      (1, charmap.getD 4 0 % 256), (1, charmap.getD 5 0 % 256), (1, charmap.getD 6 0 % 256),
      (1, charmap.getD 7 0 % 256)], ?_, ?_, Or.inl ⟨?_, ?_⟩⟩
    · have h := createCustomChar_cycles t location charmap
      simp only [Op.apply, bytes_to_cycles, List.map_cons, List.map_nil, List.flatten_cons,
        List.flatten_nil, List.append_nil]
      rw [h]
      simp only [List.append_assoc, COMMAND, DATA]
    · intro b hb
      simp only [List.mem_cons, List.mem_singleton, List.not_mem_nil, or_false] at hb
      rcases hb with h | h | h | h | h | h | h | h | h <;> subst h <;> simp <;> omega
    · have h0 : ¬ (0x40 + location % 256 * 8 < 16) := by omega
      simp [List.filter, is_display_control, h0]
    · exact createCustomChar_cursor_status t location charmap
  | goto_pos pos_i line =>
    simp only [in_geometry, Bool.and_eq_true, decide_eq_true_eq] at hop
    obtain ⟨⟨⟨hc0, _⟩, hr0⟩, hr1⟩ := hop
    simp only [address_fits, decide_eq_true_eq] at haddr
    obtain ⟨column, rfl⟩ := Int.eq_ofNat_of_zero_le hc0
    obtain ⟨row, rfl⟩ := Int.eq_ofNat_of_zero_le hr0
    have hplain : ∀ v : Nat, 128 ≤ v → v < 256 →
        [((0 : Nat), v)].filter is_display_control = [] := by
      intro v h1 _
      have : ¬ v < 16 := by omega
      simp [List.filter, is_display_control, this]
    rcases hl with h2 | h4
    · simp only [ddram_address, h2, if_true] at haddr
      have hsum : 64 * row + column < 128 := by omega
      refine ⟨[(0, 64 * row + column + 0x80)], ?_, ?_,
        Or.inl ⟨hplain _ (by omega) (by omega), rfl⟩⟩
      · rw [bytes_to_cycles_single]
        exact goto_pos_two_lines t column row h2 (by omega)
      · intro b hb
        rw [List.mem_singleton] at hb
        subst hb
        show 64 * row + column + 0x80 < 256
        omega
    · have h42 : ¬ (4 = 2) := by decide
      have hrow : row < 4 := by rw [h4] at hr1; exact_mod_cast hr1
      simp only [ddram_address, h4, h42, if_false] at haddr
      have key : ∃ off : Nat, off + column < 128 ∧
          (if (row : Int) = 0 ∨ (row : Int) = 2 then 64 * (Int.tdiv (row : Int) 2)
            else 64 * (Int.tdiv ((row : Int) - 1) 2) + 20) = (off : Int) := by
        interval_cases row
        · exact ⟨0, by simpa using haddr, by decide⟩
        · exact ⟨20, by
            have : (64 * Int.tdiv ((1 : Int) - 1) 2 + 20 : Int) = 20 := by decide
            simp at haddr; omega, by decide⟩
        · exact ⟨64, by
            simp at haddr; omega, by decide⟩
        · exact ⟨84, by
            simp at haddr; omega, by decide⟩
      obtain ⟨off, hoff, hkey⟩ := key
      refine ⟨[(0, off + column + 0x80)], ?_, ?_,
        Or.inl ⟨hplain _ (by omega) (by omega), rfl⟩⟩
      · rw [bytes_to_cycles_single]
        exact goto_pos_four_lines t column row off h4 (by omega) hkey
      · intro b hb
        rw [List.mem_singleton] at hb
        subst hb
        show off + column + 0x80 < 256
        omega

theorem handshake_as_bytes (fs : Nat) :
    handshake fs
      = bytes_to_cycles [(0, 0x33), (0, 0x32), (0, fs), (0, 0x06), (0, 0x0C), (0, 0x01)] := by
  simp only [handshake, bytes_to_cycles, List.map_cons, List.map_nil, List.flatten_cons,
    List.flatten_nil, List.append_nil, List.append_assoc]
  rfl

/-- The invariant behind C19 is kept by every admissible sequence of calls. -/
theorem tracked_run (pre : List (List Nat)) (columns lines : Nat)
    (hl : lines = 2 ∨ lines = 4) (ops : List Op) :
    ∀ t : LCDdisplay, t.no_chars = columns → t.no_lines = lines →
      (∃ bs, t.cycles = pre ++ bytes_to_cycles bs ∧ (∀ b ∈ bs, b.2 < 256)
        ∧ tracked bs t.cursor_status) →
      (∀ op ∈ ops, in_geometry columns lines op = true ∧ address_fits lines op = true) →
      ∃ bs, (run ops t).cycles = pre ++ bytes_to_cycles bs ∧ (∀ b ∈ bs, b.2 < 256)
        ∧ tracked bs (run ops t).cursor_status := by
  induction ops with
  | nil => intro t _ _ h _; exact h
  | cons op ops ih =>
    intro t hc hn hinv hops
    obtain ⟨bs, hcyc, hlt, htr⟩ := hinv
    obtain ⟨hop, haddr⟩ := hops op (List.mem_cons_self op ops)
    have hst : t.cursor_status.1 ≤ 1 ∧ t.cursor_status.2 ≤ 1 := by
      obtain ⟨b, _, hb⟩ := htr
      rw [hb]
      exact ⟨bit_le_one b 1, bit_le_one b 0⟩
    obtain ⟨add, hadd, haddlt, hcase⟩ := tracked_step op t (by rw [hn]; exact hl) hst
      (by rw [hc, hn]; exact hop) (by rw [hn]; exact haddr)
    have hsetup := setup_apply op t
    apply ih (op.apply t) (by rw [hsetup.2.1, hc]) (by rw [hsetup.2.2, hn]) _
      (fun o ho => hops o (List.mem_cons_of_mem op ho))
    refine ⟨bs ++ add, by rw [hadd, hcyc, bytes_to_cycles_append, List.append_assoc], ?_, ?_⟩
    · intro b hb
      rcases List.mem_append.1 hb with h | h
      · exact hlt b h
      · exact haddlt b h
    · rcases hcase with ⟨hplain, hsame⟩ | ⟨b, hb, hdc, hnew⟩
      · rw [hsame]; exact tracked_append_plain bs add _ htr hplain
      · rw [hnew, hb]; exact tracked_append_control bs b hdc

/-- C19 (amended): on a two-line or four-line display, after `init` and any
sequence of `clear`, `cursor_on()`, `cursor_on(blink)`, `cursor_off`,
`display_on`, `display_off`, `print`, `displayChar`, `createCustomChar` with a
slot in 0..7 and `goto_pos` with a position inside the geometry whose address
is below 128, the trace sent since the start of `init` contains a
display-control byte `0b00001DCB`, and bits 1 and 0 of the most recent one are
the tracked flags `cursor_status`. -/
theorem C19_tracked_cursor_state (s0 : LCDdisplay) (ops : List Op)
    (hl : s0.no_lines = 2 ∨ s0.no_lines = 4)
    (hops : ∀ op ∈ ops, in_geometry s0.no_chars s0.no_lines op = true
      ∧ address_fits s0.no_lines op = true) :
    ∃ b, last_display_control ((run ops s0.init).cycles.drop s0.cycles.length) = some (0, b)
      ∧ (run ops s0.init).cursor_status = (bit b 1, bit b 0) := by
  have hbase : ∃ bs, s0.init.cycles = s0.cycles ++ bytes_to_cycles bs ∧ (∀ b ∈ bs, b.2 < 256)
      ∧ tracked bs s0.init.cursor_status := by
    refine ⟨[(0, 0x33), (0, 0x32), (0, if s0.no_lines = 2 then 0x28 else 0x20), (0, 0x06),
      (0, 0x0C), (0, 0x01)], ?_, ?_, ?_⟩
    · rw [init_cycles, handshake_as_bytes]
    · intro b hb
      simp only [List.mem_cons, List.mem_singleton, List.not_mem_nil, or_false] at hb
      rcases hb with h | h | h | h | h | h <;> subst h
      · decide
      · decide
      · show (if s0.no_lines = 2 then 0x28 else 0x20) < 256
        split <;> decide
      · decide
      · decide
      · decide
    · refine ⟨0x0C, ?_, by rw [init_cursor_status]; rfl⟩
      by_cases h2 : s0.no_lines = 2
      · rw [if_pos h2]; decide
      · rw [if_neg h2]; decide
  obtain ⟨bs, hcyc, hlt, b, hlast, hbits⟩ := tracked_run s0.cycles s0.no_chars s0.no_lines hl
    ops s0.init (init_no_chars s0) (init_no_lines s0) hbase hops
  refine ⟨b, ?_, hbits⟩
  rw [hcyc, List.drop_left, last_display_control, decode_bytes_to_cycles bs hlt]
  exact hlast

/-- Witness for C19: cursor on, a jump and display off on the example display. -/
theorem C19_tracked_cursor_state_witness :
    ∃ b, last_display_control
          ((run [Op.cursor_on, Op.goto_pos 3 1, Op.display_off] lcd_ctrl.init).cycles.drop
            lcd_ctrl.cycles.length) = some (0, b)
      ∧ (run [Op.cursor_on, Op.goto_pos 3 1, Op.display_off] lcd_ctrl.init).cursor_status
          = (bit b 1, bit b 0) :=
  C19_tracked_cursor_state lcd_ctrl [Op.cursor_on, Op.goto_pos 3 1, Op.display_off]
    (by decide) (by decide)

end LCD
